import Mathlib

/-!
# VoronoiDiagram2D: bookkeeping of vertices, lines, edges, neighbours and regions

A shallow embedding of the inline member functions of
`Modules/Segmentation/Voronoi/include/itkVoronoiDiagram2D.h`.

Conventions.
* The coordinate-dependent `PointType` is a type parameter `P`; no function
  of the header computes with coordinates.
* A C++ `int` id is an `Int`.  Container sizes are taken to fit in `int`, so
  that `static_cast< int >(size)` is the size itself.
* `std::vector::operator[]` is unchecked: an index outside `[0, size)` has no
  defined result.  That outcome is `Fault.undefined`, and it is kept apart
  from an error that a callee reports (`Fault.outOfRange`).
* A `void` member function is a function to the state after the call
  (wrapped in `Except Fault` when the call can be undefined).
-/

namespace itk

/-- How a call can fail to produce a result. -/
inductive Fault where
  /-- An error reported to the caller by a bounds-checked access. -/
  | outOfRange
  /-- No defined behaviour: unchecked indexing out of range, or a call
  through a null pointer. -/
  | undefined
  deriving DecidableEq, Repr

/-- The type `EdgeInfo`, a `Point< int, 2 >`: the components `x[0]`, `x[1]`. -/
abbrev EdgeInfo := Int × Int

/-- The nested class `VoronoiEdge`. -/
structure VoronoiEdge (P : Type) where
  m_Left : P
  m_Right : P
  m_LeftID : Int
  m_RightID : Int
  m_LineID : Int
  deriving DecidableEq, Repr

/-- Modelled from the spec: the point container of the underlying mesh
(`PointsContainer`, with `Initialize`, `Size`, `InsertElement`, `ElementAt`),
whose class is not among the sources.  The spec describes it as an
append-only, randomly accessible sequence of vertex coordinates keyed by a
dense integer id. -/
structure PointsContainer (P : Type) where
  elements : List P
  deriving DecidableEq, Repr

namespace PointsContainer

variable {P : Type}

/-- Modelled from the spec: `Initialize()` truncates the container to empty. -/
def Initialize (_c : PointsContainer P) : PointsContainer P := ⟨[]⟩

/-- Modelled from the spec: `Size()` is the number of stored vertices. -/
def Size (c : PointsContainer P) : Nat := c.elements.length

/-- Modelled from the spec: `InsertElement(id, x)`.  The spec describes only
the append (the id is the pre-insertion count); for any other id it defines
nothing. -/
def InsertElement (c : PointsContainer P) (id : Nat) (x : P) :
    Except Fault (PointsContainer P) :=
  if id = c.Size then .ok ⟨c.elements ++ [x]⟩ else .error Fault.undefined

/-- Modelled from the spec: `ElementAt(id)` is a bounds-checked random-access
read; an id never added is an error, not a silent default.  The second
component is the container after the call. -/
def ElementAt (c : PointsContainer P) (id : Int) :
    Except Fault P × PointsContainer P :=
  if 0 ≤ id then
    match c.elements[id.toNat]? with
    | some p => (.ok p, c)
    | none => (.error Fault.outOfRange, c)
  else (.error Fault.outOfRange, c)

end PointsContainer

/-- Modelled from the spec: the polygon cell of a region (`PolygonCell`, with
`ClearPoints`, `AddPointId`, `BuildEdges`), whose class is not among the
sources: an accumulated ordered list of boundary vertex ids, and the closed
cycle of edges built from it. -/
structure PolygonCell where
  m_PointIds : List Int
  m_Edges : List (Int × Int)
  deriving DecidableEq, Repr

namespace PolygonCell

/-- Modelled from the spec: `ClearPoints()` empties the pending point list. -/
def ClearPoints (c : PolygonCell) : PolygonCell := { c with m_PointIds := [] }

/-- Modelled from the spec: `AddPointId(x)` appends a boundary vertex id in
discovery order. -/
def AddPointId (c : PolygonCell) (x : Int) : PolygonCell :=
  { c with m_PointIds := c.m_PointIds ++ [x] }

/-- Modelled from the spec: `BuildEdges()` converts the accumulated point list
into a closed cycle: each point id is joined to its successor, the last one to
the first. -/
def BuildEdges (c : PolygonCell) : PolygonCell :=
  { c with m_Edges := List.zip c.m_PointIds (c.m_PointIds.rotate 1) }

end PolygonCell

/-- The data members of `VoronoiDiagram2D`, with the point container pointer
inherited from the mesh (`none` is the null pointer). -/
structure VoronoiDiagram2D (P : Type) where
  m_PointsContainer : Option (PointsContainer P)
  m_Seeds : List P
  m_NumberOfSeeds : Nat
  m_VoronoiRegions : List PolygonCell
  m_VoronoiBoundary : P
  m_VoronoiBoundaryOrigin : P
  m_CellNeighborsID : List (List Int)
  m_LineList : List EdgeInfo
  m_EdgeList : List (VoronoiEdge P)
  deriving DecidableEq, Repr

/-- The expression `v[id]` on a `std::vector` with an `int` index: defined
only for `0 ≤ id < v.size()`. -/
def vectorAt {α : Type} (v : List α) (id : Int) : Except Fault α :=
  if 0 ≤ id then
    match v[id.toNat]? with
    | some a => .ok a
    | none => .error Fault.undefined
  else .error Fault.undefined

/-- The statement `v[i].push_back(y)` on a vector of vectors. -/
def pushBackAt (v : List (List Int)) (i : Int) (y : Int) :
    Except Fault (List (List Int)) :=
  match vectorAt v i with
  | .ok l => .ok (v.set i.toNat (l ++ [y]))
  | .error e => .error e

/-- The statement `v[i]->f()` on a vector of cell pointers, `f` a mutator of
the cell. -/
def updateCellAt (v : List PolygonCell) (i : Int) (f : PolygonCell → PolygonCell) :
    Except Fault (List PolygonCell) :=
  match vectorAt v i with
  | .ok c => .ok (v.set i.toNat (f c))
  | .error e => .error e

namespace VoronoiDiagram2D

variable {P : Type}

/-- `AddCellNeighbor(x)`: push `x[1]` on the list of `x[0]`, then `x[0]` on the
list of `x[1]`. -/
def AddCellNeighbor (d : VoronoiDiagram2D P) (x : EdgeInfo) :
    Except Fault (VoronoiDiagram2D P) :=
  match pushBackAt d.m_CellNeighborsID x.1 x.2 with
  | .ok v1 =>
    match pushBackAt v1 x.2 x.1 with
    | .ok v2 => .ok { d with m_CellNeighborsID := v2 }
    | .error e => .error e
  | .error e => .error e

/-- `ClearRegion(i)`. -/
def ClearRegion (d : VoronoiDiagram2D P) (i : Int) : Except Fault (VoronoiDiagram2D P) :=
  match updateCellAt d.m_VoronoiRegions i PolygonCell.ClearPoints with
  | .ok v => .ok { d with m_VoronoiRegions := v }
  | .error e => .error e

/-- `VoronoiRegionAddPointId(id, x)`. -/
def VoronoiRegionAddPointId (d : VoronoiDiagram2D P) (id x : Int) :
    Except Fault (VoronoiDiagram2D P) :=
  match updateCellAt d.m_VoronoiRegions id (fun c => c.AddPointId x) with
  | .ok v => .ok { d with m_VoronoiRegions := v }
  | .error e => .error e

/-- `BuildEdge(id)`. -/
def BuildEdge (d : VoronoiDiagram2D P) (id : Int) : Except Fault (VoronoiDiagram2D P) :=
  match updateCellAt d.m_VoronoiRegions id PolygonCell.BuildEdges with
  | .ok v => .ok { d with m_VoronoiRegions := v }
  | .error e => .error e

/-- `LineListClear()`. -/
def LineListClear (d : VoronoiDiagram2D P) : VoronoiDiagram2D P :=
  { d with m_LineList := [] }

/-- `EdgeListClear()`. -/
def EdgeListClear (d : VoronoiDiagram2D P) : VoronoiDiagram2D P :=
  { d with m_EdgeList := [] }

/-- `VertexListClear()`: create the container when the pointer is null, then
initialize it. -/
def VertexListClear (d : VoronoiDiagram2D P) : VoronoiDiagram2D P :=
  let c : PointsContainer P :=
    match d.m_PointsContainer with
    | none => ⟨[]⟩
    | some c => c
  { d with m_PointsContainer := some c.Initialize }

/-- `LineListSize()`. -/
def LineListSize (d : VoronoiDiagram2D P) : Int := d.m_LineList.length

/-- `EdgeListSize()`. -/
def EdgeListSize (d : VoronoiDiagram2D P) : Int := d.m_EdgeList.length

/-- `VertexListSize()`: undefined through a null container pointer. -/
def VertexListSize (d : VoronoiDiagram2D P) : Except Fault Int :=
  match d.m_PointsContainer with
  | none => .error Fault.undefined
  | some c => .ok c.Size

/-- `AddLine(x)`. -/
def AddLine (d : VoronoiDiagram2D P) (x : EdgeInfo) : VoronoiDiagram2D P :=
  { d with m_LineList := d.m_LineList ++ [x] }

/-- `AddEdge(x)`. -/
def AddEdge (d : VoronoiDiagram2D P) (x : VoronoiEdge P) : VoronoiDiagram2D P :=
  { d with m_EdgeList := d.m_EdgeList ++ [x] }

/-- `AddVert(x)`: insert at the index `Size()`; undefined through a null
container pointer. -/
def AddVert (d : VoronoiDiagram2D P) (x : P) : Except Fault (VoronoiDiagram2D P) :=
  match d.m_PointsContainer with
  | none => .error Fault.undefined
  | some c =>
    match c.InsertElement c.Size x with
    | .ok c1 => .ok { d with m_PointsContainer := some c1 }
    | .error e => .error e

/-- `GetLine(id)`. -/
def GetLine (d : VoronoiDiagram2D P) (id : Int) : Except Fault EdgeInfo :=
  vectorAt d.m_LineList id

/-- `GetEdge(id)`. -/
def GetEdge (d : VoronoiDiagram2D P) (id : Int) : Except Fault (VoronoiEdge P) :=
  vectorAt d.m_EdgeList id

/-- `GetVertex(id)`: the result of the container read, and the diagram after
the call; undefined through a null container pointer. -/
def GetVertex (d : VoronoiDiagram2D P) (id : Int) :
    Except Fault P × VoronoiDiagram2D P :=
  match d.m_PointsContainer with
  | none => (.error Fault.undefined, d)
  | some c =>
    let r := c.ElementAt id
    (r.1, { d with m_PointsContainer := some r.2 })

/-- `GetEdgeEnd(id)`: the two indexed reads `m_EdgeList[id].m_LeftID` and
`m_EdgeList[id].m_RightID`. -/
def GetEdgeEnd (d : VoronoiDiagram2D P) (id : Int) : Except Fault EdgeInfo :=
  match vectorAt d.m_EdgeList id with
  | .ok e0 =>
    match vectorAt d.m_EdgeList id with
    | .ok e1 => .ok (e0.m_LeftID, e1.m_RightID)
    | .error e => .error e
  | .error e => .error e

/-- `GetEdgeLineID(id)`. -/
def GetEdgeLineID (d : VoronoiDiagram2D P) (id : Int) : Except Fault Int :=
  match vectorAt d.m_EdgeList id with
  | .ok e => .ok e.m_LineID
  | .error e => .error e

/-- The neighbour list of a seed, `m_CellNeighborsID[seeds]`: the sequence
that `NeighborIdsBegin(seeds)` and `NeighborIdsEnd(seeds)` delimit. -/
def NeighborIds (d : VoronoiDiagram2D P) (seeds : Int) : Except Fault (List Int) :=
  vectorAt d.m_CellNeighborsID seeds

/-- A sequence of `AddEdge` calls, in order. -/
def AddEdges (d : VoronoiDiagram2D P) (xs : List (VoronoiEdge P)) : VoronoiDiagram2D P :=
  xs.foldl AddEdge d

/-- A sequence of `AddCellNeighbor` calls, in order; it stops at the first
call that is undefined. -/
def AddCellNeighbors (d : VoronoiDiagram2D P) :
    List EdgeInfo → Except Fault (VoronoiDiagram2D P)
  | [] => .ok d
  | x :: xs =>
    match d.AddCellNeighbor x with
    | .ok d1 => AddCellNeighbors d1 xs
    | .error e => .error e

/-- A seed id that has a neighbour list: `m_CellNeighborsID` holds one list
per seed. -/
def ValidSeed (d : VoronoiDiagram2D P) (a : Int) : Prop :=
  0 ≤ a ∧ a < (d.m_CellNeighborsID.length : Int)

/-- The seed `b` is an element of the neighbour list of the seed `a`. -/
def IsNeighbor (d : VoronoiDiagram2D P) (a b : Int) : Prop :=
  ∃ l, d.NeighborIds a = .ok l ∧ b ∈ l

/-- The neighbour list of the seed `a` holds `n` occurrences of `b`. -/
def NeighborCount (d : VoronoiDiagram2D P) (a b : Int) (n : Nat) : Prop :=
  ∃ l, d.NeighborIds a = .ok l ∧ l.count b = n

/-- The vertex id `x` is smaller than `VertexListSize()`. -/
def VertexIdBelowSize (d : VoronoiDiagram2D P) (x : Int) : Prop :=
  ∃ n, d.VertexListSize = .ok n ∧ x < n

/-- No forward references: every stored edge has a line id smaller than
`LineListSize()` and vertex ids smaller than `VertexListSize()`, and every
region point id is smaller than `VertexListSize()`. -/
def NoForwardReferences (d : VoronoiDiagram2D P) : Prop :=
  (∀ e ∈ d.m_EdgeList, e.m_LineID < d.LineListSize ∧
    d.VertexIdBelowSize e.m_LeftID ∧ d.VertexIdBelowSize e.m_RightID) ∧
  ∀ r ∈ d.m_VoronoiRegions, ∀ x ∈ r.m_PointIds, d.VertexIdBelowSize x

/-- The empty diagram: no line, no edge, no vertex (the container pointer is
null or the container is empty), no pending point in any region. -/
def IsEmptyDiagram (d : VoronoiDiagram2D P) : Prop :=
  d.m_LineList = [] ∧ d.m_EdgeList = [] ∧
  (∀ c, d.m_PointsContainer = some c → c.elements = []) ∧
  ∀ r ∈ d.m_VoronoiRegions, r.m_PointIds = []

/-- A sequence of `AddLine` calls, in order. -/
def AddLines (d : VoronoiDiagram2D P) (xs : List EdgeInfo) : VoronoiDiagram2D P :=
  xs.foldl AddLine d

/-- A sequence of `AddVert` calls, in order; it stops at the first call that
is undefined. -/
def AddVerts (d : VoronoiDiagram2D P) : List P → Except Fault (VoronoiDiagram2D P)
  | [] => .ok d
  | p :: ps =>
    match d.AddVert p with
    | .ok d1 => AddVerts d1 ps
    | .error e => .error e

/-- The pending point list of region `i`: the point ids of the cell
`m_VoronoiRegions[i]`. -/
def RegionPointIds (d : VoronoiDiagram2D P) (i : Int) : Except Fault (List Int) :=
  match vectorAt d.m_VoronoiRegions i with
  | .ok c => .ok c.m_PointIds
  | .error e => .error e

/-- A sequence of `VoronoiRegionAddPointId(i, x)` calls on one region, in
order; it stops at the first call that is undefined. -/
def VoronoiRegionAddPointIds (d : VoronoiDiagram2D P) (i : Int) :
    List Int → Except Fault (VoronoiDiagram2D P)
  | [] => .ok d
  | x :: xs =>
    match d.VoronoiRegionAddPointId i x with
    | .ok d1 => VoronoiRegionAddPointIds d1 i xs
    | .error e => .error e

/-- Modelled from the spec: `Reset()`, which the header declares and a file
that is not among the sources defines.  It clears the line, edge and vertex
lists and the pending point list of every region, and with them the derived
neighbour lists; it retains the seeds and the bounding rectangle. -/
def Reset (d : VoronoiDiagram2D P) : VoronoiDiagram2D P :=
  { d.VertexListClear.LineListClear.EdgeListClear with
    m_VoronoiRegions := d.m_VoronoiRegions.map PolygonCell.ClearPoints
    m_CellNeighborsID := d.m_CellNeighborsID.map (fun _ => []) }

/-- The ordered contents of a diagram: the vertex sequence (`none` while the
container pointer is null), the line sequence, the edge sequence, and the
point list of each region. -/
def Contents (d : VoronoiDiagram2D P) :
    Option (List P) × List EdgeInfo × List (VoronoiEdge P) × List (List Int) :=
  (d.m_PointsContainer.map (fun c => c.elements), d.m_LineList, d.m_EdgeList,
    d.m_VoronoiRegions.map (fun c => c.m_PointIds))

/-- A pair of seed ids that are both in `[0, NumberOfSeeds)` and distinct. -/
def ValidSeedPair (d : VoronoiDiagram2D P) (x : EdgeInfo) : Prop :=
  (0 ≤ x.1 ∧ x.1 < (d.m_NumberOfSeeds : Int)) ∧
  (0 ≤ x.2 ∧ x.2 < (d.m_NumberOfSeeds : Int)) ∧ x.1 ≠ x.2

/-- Every stored edge refers to a line whose seed pair is valid and
distinct. -/
def EdgeSeedsValid (d : VoronoiDiagram2D P) : Prop :=
  ∀ e ∈ d.m_EdgeList, ∃ x, d.GetLine e.m_LineID = .ok x ∧ d.ValidSeedPair x

/-- `GetLine(id)` as a call: the value returned and the diagram after the
call.  The body reads `m_LineList` and assigns no member. -/
def GetLineCall (d : VoronoiDiagram2D P) (id : Int) :
    Except Fault (EdgeInfo × VoronoiDiagram2D P) :=
  match vectorAt d.m_LineList id with
  | .ok x => .ok (x, d)
  | .error e => .error e

/-- `GetEdge(id)` as a call: the value returned and the diagram after the
call. -/
def GetEdgeCall (d : VoronoiDiagram2D P) (id : Int) :
    Except Fault (VoronoiEdge P × VoronoiDiagram2D P) :=
  match vectorAt d.m_EdgeList id with
  | .ok x => .ok (x, d)
  | .error e => .error e

/-- `GetEdgeEnd(id)` as a call: the two indexed reads fill the local `x`,
which is returned; no member is assigned. -/
def GetEdgeEndCall (d : VoronoiDiagram2D P) (id : Int) :
    Except Fault (EdgeInfo × VoronoiDiagram2D P) :=
  match vectorAt d.m_EdgeList id with
  | .ok e0 =>
    match vectorAt d.m_EdgeList id with
    | .ok e1 => .ok ((e0.m_LeftID, e1.m_RightID), d)
    | .error e => .error e
  | .error e => .error e

/-- `GetEdgeLineID(id)` as a call. -/
def GetEdgeLineIDCall (d : VoronoiDiagram2D P) (id : Int) :
    Except Fault (Int × VoronoiDiagram2D P) :=
  match vectorAt d.m_EdgeList id with
  | .ok e => .ok (e.m_LineID, d)
  | .error e => .error e

/-- `LineListSize()` as a call. -/
def LineListSizeCall (d : VoronoiDiagram2D P) : Int × VoronoiDiagram2D P :=
  ((d.m_LineList.length : Int), d)

/-- `EdgeListSize()` as a call. -/
def EdgeListSizeCall (d : VoronoiDiagram2D P) : Int × VoronoiDiagram2D P :=
  ((d.m_EdgeList.length : Int), d)

/-- `AddLine(x)` as a call: the value handed back to the caller and the
diagram after the call.  The function is `void`, it hands back no value
(`none`). -/
def AddLineCall (d : VoronoiDiagram2D P) (x : EdgeInfo) :
    Option Int × VoronoiDiagram2D P :=
  (none, d.AddLine x)

/-- `AddEdge(x)` as a call; the function is `void`. -/
def AddEdgeCall (d : VoronoiDiagram2D P) (x : VoronoiEdge P) :
    Option Int × VoronoiDiagram2D P :=
  (none, d.AddEdge x)

/-- `AddVert(x)` as a call; the function is `void`, and undefined through a
null container pointer. -/
def AddVertCall (d : VoronoiDiagram2D P) (x : P) :
    Except Fault (Option Int × VoronoiDiagram2D P) :=
  match d.AddVert x with
  | .ok d1 => .ok (none, d1)
  | .error e => .error e

end VoronoiDiagram2D

/-- A call of the construction interface. -/
inductive Call (P : Type) where
  | AddVert (x : P)
  | AddLine (x : EdgeInfo)
  | AddEdge (x : VoronoiEdge P)
  | AddCellNeighbor (x : EdgeInfo)
  | VoronoiRegionAddPointId (id x : Int)
  | ClearRegion (i : Int)
  | LineListClear
  | EdgeListClear
  | VertexListClear
  deriving DecidableEq, Repr

namespace Call

variable {P : Type}

/-- The state after a call, when the call is defined. -/
def run (c : Call P) (d : VoronoiDiagram2D P) : Except Fault (VoronoiDiagram2D P) :=
  match c with
  | AddVert x => d.AddVert x
  | AddLine x => .ok (d.AddLine x)
  | AddEdge x => .ok (d.AddEdge x)
  | AddCellNeighbor x => d.AddCellNeighbor x
  | VoronoiRegionAddPointId id x => d.VoronoiRegionAddPointId id x
  | ClearRegion i => d.ClearRegion i
  | LineListClear => .ok d.LineListClear
  | EdgeListClear => .ok d.EdgeListClear
  | VertexListClear => .ok d.VertexListClear

/-- A call that keeps references backward: an edge or a region point is added
only with ids below the current sizes, and the line list or the vertex store
is cleared only while nothing refers to it.  The other calls are free. -/
def Respects (c : Call P) (d : VoronoiDiagram2D P) : Prop :=
  match c with
  | AddEdge x => x.m_LineID < d.LineListSize ∧
      d.VertexIdBelowSize x.m_LeftID ∧ d.VertexIdBelowSize x.m_RightID
  | VoronoiRegionAddPointId _ x => d.VertexIdBelowSize x
  | LineListClear => d.m_EdgeList = []
  | VertexListClear => d.m_EdgeList = [] ∧ ∀ r ∈ d.m_VoronoiRegions, r.m_PointIds = []
  | _ => True

end Call

/-- A sequence of calls, in order; it stops at the first call that is
undefined. -/
def runCalls {P : Type} (d : VoronoiDiagram2D P) :
    List (Call P) → Except Fault (VoronoiDiagram2D P)
  | [] => .ok d
  | c :: cs =>
    match c.run d with
    | .ok d1 => runCalls d1 cs
    | .error e => .error e

/-- Every call of the sequence keeps references backward in the state it is
made in. -/
def RespectsAll {P : Type} (d : VoronoiDiagram2D P) : List (Call P) → Prop
  | [] => True
  | c :: cs =>
    c.Respects d ∧
    match c.run d with
    | .ok d1 => RespectsAll d1 cs
    | .error _ => True

namespace Call

variable {P : Type}

/-- A line or edge insertion that keeps seed pairs well formed: `AddLine`
with a valid, distinct seed pair, `AddEdge` with the id of a line already in
the list.  No other call counts. -/
def KeepsSeedPairs (c : Call P) (d : VoronoiDiagram2D P) : Prop :=
  match c with
  | AddLine x => d.ValidSeedPair x
  | AddEdge x => 0 ≤ x.m_LineID ∧ x.m_LineID < d.LineListSize
  | _ => False

end Call

/-- Every call of the sequence is a line or edge insertion that keeps seed
pairs well formed in the state it is made in. -/
def KeepsSeedPairsAll {P : Type} (d : VoronoiDiagram2D P) : List (Call P) → Prop
  | [] => True
  | c :: cs =>
    c.KeepsSeedPairs d ∧
    match c.run d with
    | .ok d1 => KeepsSeedPairsAll d1 cs
    | .error _ => True

/-- A call of a build that `Reset()` lets replay. -/
inductive Mutation (P : Type) where
  | AddVert (x : P)
  | AddLine (x : EdgeInfo)
  | AddEdge (x : VoronoiEdge P)
  | VoronoiRegionAddPointId (id x : Int)
  | BuildEdge (id : Int)
  deriving DecidableEq, Repr

namespace Mutation

variable {P : Type}

/-- The state after a mutation, when the call is defined. -/
def run (m : Mutation P) (d : VoronoiDiagram2D P) : Except Fault (VoronoiDiagram2D P) :=
  match m with
  | AddVert x => d.AddVert x
  | AddLine x => .ok (d.AddLine x)
  | AddEdge x => .ok (d.AddEdge x)
  | VoronoiRegionAddPointId id x => d.VoronoiRegionAddPointId id x
  | BuildEdge id => d.BuildEdge id

end Mutation

/-- A sequence of mutations, in order; it stops at the first call that is
undefined. -/
def runMutations {P : Type} (d : VoronoiDiagram2D P) :
    List (Mutation P) → Except Fault (VoronoiDiagram2D P)
  | [] => .ok d
  | m :: ms =>
    match m.run d with
    | .ok d1 => runMutations d1 ms
    | .error e => .error e

/-- A call on the vertex store. -/
inductive VertexCall (P : Type) where
  | VertexListClear
  | AddVert (x : P)
  | GetVertex (id : Int)
  deriving DecidableEq, Repr

namespace VertexCall

variable {P : Type}

/-- The state after a call on the vertex store.  A `GetVertex` that fails
ends the sequence with its error. -/
def run (c : VertexCall P) (d : VoronoiDiagram2D P) : Except Fault (VoronoiDiagram2D P) :=
  match c with
  | VertexListClear => .ok d.VertexListClear
  | AddVert x => d.AddVert x
  | GetVertex id =>
    match (d.GetVertex id).1 with
    | .ok _ => .ok (d.GetVertex id).2
    | .error e => .error e

end VertexCall

/-- A sequence of calls on the vertex store, in order. -/
def runVertexCalls {P : Type} (d : VoronoiDiagram2D P) :
    List (VertexCall P) → Except Fault (VoronoiDiagram2D P)
  | [] => .ok d
  | c :: cs =>
    match c.run d with
    | .ok d1 => runVertexCalls d1 cs
    | .error e => .error e

/-! ## Sample data -/

/-- A sample edge record. -/
def edgeA : VoronoiEdge (Int × Int) := ⟨(0, 5), (5, 5), 0, 1, 0⟩

/-- A second sample edge record, on the same line as `edgeA`. -/
def edgeB : VoronoiEdge (Int × Int) := ⟨(5, 5), (5, 0), 1, 2, 0⟩

/-- A diagram as it is before any seed is set: null point container, all
lists empty. -/
def blankDiagram : VoronoiDiagram2D (Int × Int) :=
  { m_PointsContainer := none, m_Seeds := [], m_NumberOfSeeds := 0,
    m_VoronoiRegions := [], m_VoronoiBoundary := (20, 20),
    m_VoronoiBoundaryOrigin := (-5, -5), m_CellNeighborsID := [],
    m_LineList := [], m_EdgeList := [] }

/-- A diagram of four seeds in the middle of a build: three vertices, two
lines, one edge, one neighbour pair, one region with two pending points. -/
def sampleDiagram : VoronoiDiagram2D (Int × Int) :=
  { m_PointsContainer := some ⟨[(5, 5), (5, -5), (-5, 5)]⟩,
    m_Seeds := [(0, 0), (10, 0), (0, 10), (10, 10)], m_NumberOfSeeds := 4,
    m_VoronoiRegions := [⟨[0, 1], []⟩, ⟨[], []⟩, ⟨[], []⟩, ⟨[], []⟩],
    m_VoronoiBoundary := (20, 20), m_VoronoiBoundaryOrigin := (-5, -5),
    m_CellNeighborsID := [[1], [0], [], []],
    m_LineList := [(0, 1), (0, 2)], m_EdgeList := [edgeA] }

/-- A diagram right after four seeds were set: one empty neighbour list and
one empty region per seed, no vertex, line or edge. -/
def seededDiagram : VoronoiDiagram2D (Int × Int) :=
  { m_PointsContainer := some ⟨[]⟩,
    m_Seeds := [(0, 0), (10, 0), (0, 10), (10, 10)], m_NumberOfSeeds := 4,
    m_VoronoiRegions := [⟨[], []⟩, ⟨[], []⟩, ⟨[], []⟩, ⟨[], []⟩],
    m_VoronoiBoundary := (20, 20), m_VoronoiBoundaryOrigin := (-5, -5),
    m_CellNeighborsID := [[], [], [], []],
    m_LineList := [], m_EdgeList := [] }

/-- A build fragment in which every reference is backward: two vertices and
one line, then an edge between them on that line, a boundary point of region
0, and a neighbour pair. -/
def backwardCalls : List (Call (Int × Int)) :=
  [Call.VertexListClear, Call.AddVert (0, 5), Call.AddVert (5, 5), Call.AddLine (0, 1),
    Call.AddEdge edgeA, Call.VoronoiRegionAddPointId 0 1, Call.AddCellNeighbor (0, 1)]

/-- The same vertices, line and edge, followed by a clear of the line list
while the edge is still stored. -/
def clearingCalls : List (Call (Int × Int)) :=
  [Call.VertexListClear, Call.AddVert (0, 5), Call.AddVert (5, 5), Call.AddLine (0, 1),
    Call.AddEdge edgeA, Call.LineListClear]

/-- A line whose two seed ids are the same seed, then an edge on it. -/
def selfPairCalls : List (Call (Int × Int)) :=
  [Call.AddLine (2, 2), Call.AddEdge edgeA]

/-- A line that names the seed 9 of a four-seed diagram, then an edge on it. -/
def strayPairCalls : List (Call (Int × Int)) :=
  [Call.AddLine (0, 9), Call.AddEdge edgeA]

/-- Two lines between seeds of a four-seed diagram, then two edges on the
first of them. -/
def seedPairCalls : List (Call (Int × Int)) :=
  [Call.AddLine (0, 1), Call.AddLine (0, 2), Call.AddEdge edgeA, Call.AddEdge edgeB]

/-- A small build: two vertices, a line, an edge, two boundary points of
region 0, and the polygon of region 0. -/
def buildMutations : List (Mutation (Int × Int)) :=
  [Mutation.AddVert (0, 5), Mutation.AddVert (5, 5), Mutation.AddLine (0, 1),
    Mutation.AddEdge edgeA, Mutation.VoronoiRegionAddPointId 0 0,
    Mutation.VoronoiRegionAddPointId 0 1, Mutation.BuildEdge 0]

/-- Calls on the vertex store: two insertions, a read, a clear, an insertion. -/
def vertexCalls : List (VertexCall (Int × Int)) :=
  [VertexCall.AddVert (0, 5), VertexCall.AddVert (5, 5), VertexCall.GetVertex 1,
    VertexCall.VertexListClear, VertexCall.AddVert (7, 7)]

/-! ## Indexing lemmas -/

section Lemmas

variable {α : Type}

theorem vectorAt_ofNat (v : List α) (k : Nat) (h : k < v.length) :
    vectorAt v (k : Int) = .ok (v.get ⟨k, h⟩) := by
  simp [vectorAt, List.getElem?_eq_getElem h]

theorem vectorAt_of_le (v : List α) (id : Int) (h : (v.length : Int) ≤ id) :
    vectorAt v id = .error Fault.undefined := by
  unfold vectorAt
  split
  · have hlen : v.length ≤ id.toNat := by omega
    rw [List.getElem?_eq_none hlen]
  · rfl

theorem vectorAt_of_neg (v : List α) (id : Int) (h : id < 0) :
    vectorAt v id = .error Fault.undefined := by
  unfold vectorAt
  rw [if_neg (by omega)]

theorem vectorAt_ok_iff (v : List α) (id : Int) :
    (∃ a, vectorAt v id = .ok a) ↔ (0 ≤ id ∧ id < (v.length : Int)) := by
  constructor
  · rintro ⟨a, ha⟩
    by_contra hcon
    by_cases h0 : id < 0
    · rw [vectorAt_of_neg v id h0] at ha
      cases ha
    · rw [vectorAt_of_le v id (by omega)] at ha
      cases ha
  · rintro ⟨h0, h1⟩
    obtain ⟨k, rfl⟩ := Int.eq_ofNat_of_zero_le h0
    have hk : k < v.length := by exact_mod_cast h1
    exact ⟨_, vectorAt_ofNat v k hk⟩

theorem vectorAt_append_length (v : List α) (x : α) :
    vectorAt (v ++ [x]) (v.length : Int) = .ok x := by
  have h : v.length < (v ++ [x]).length := by simp
  rw [vectorAt_ofNat _ _ h]
  simp

theorem ElementAt_snd {P : Type} (c : PointsContainer P) (id : Int) :
    (c.ElementAt id).2 = c := by
  unfold PointsContainer.ElementAt
  split
  · split <;> rfl
  · rfl

theorem ElementAt_ofNat {P : Type} (c : PointsContainer P) (k : Nat)
    (h : k < c.elements.length) :
    (c.ElementAt (k : Int)).1 = .ok (c.elements.get ⟨k, h⟩) := by
  simp [PointsContainer.ElementAt, List.getElem?_eq_getElem h]

theorem ElementAt_out {P : Type} (c : PointsContainer P) (id : Int)
    (h : id < 0 ∨ (c.Size : Int) ≤ id) :
    (c.ElementAt id).1 = .error Fault.outOfRange := by
  unfold PointsContainer.ElementAt
  split
  · have hlen : c.elements.length ≤ id.toNat := by
      unfold PointsContainer.Size at h
      omega
    rw [List.getElem?_eq_none hlen]
  · rfl

theorem ElementAt_ok_iff {P : Type} (c : PointsContainer P) (id : Int) :
    (∃ p, (c.ElementAt id).1 = .ok p) ↔ (0 ≤ id ∧ id < (c.Size : Int)) := by
  constructor
  · rintro ⟨p, hp⟩
    by_contra hcon
    rw [ElementAt_out c id (by omega)] at hp
    cases hp
  · rintro ⟨h0, h1⟩
    obtain ⟨k, rfl⟩ := Int.eq_ofNat_of_zero_le h0
    have hk : k < c.elements.length := by
      unfold PointsContainer.Size at h1
      exact_mod_cast h1
    exact ⟨_, ElementAt_ofNat c k hk⟩

end Lemmas

namespace VoronoiDiagram2D

variable {P : Type}

theorem AddEdges_m_EdgeList (d : VoronoiDiagram2D P) (xs : List (VoronoiEdge P)) :
    (d.AddEdges xs).m_EdgeList = d.m_EdgeList ++ xs := by
  induction xs generalizing d with
  | nil => simp [AddEdges]
  | cons x xs ih =>
    have hstep : d.AddEdges (x :: xs) = (d.AddEdge x).AddEdges xs := rfl
    rw [hstep, ih]
    simp [AddEdge]

theorem GetEdgeEnd_eq (d : VoronoiDiagram2D P) (id : Int) (x : VoronoiEdge P)
    (h : vectorAt d.m_EdgeList id = .ok x) :
    d.GetEdgeEnd id = .ok (x.m_LeftID, x.m_RightID) := by
  simp [GetEdgeEnd, h]

/-- C1: after any sequence of `AddEdge` calls made on an empty edge list,
`EdgeListSize()` is the number of calls, and for every id from 0 up to that
size `GetEdgeEnd(id)` returns the pair `(m_LeftID, m_RightID)` of the record
given to the call number `id`. -/
theorem GetEdgeEnd_round_trip (d : VoronoiDiagram2D P) (xs : List (VoronoiEdge P))
    (hd : d.m_EdgeList = []) :
    (d.AddEdges xs).EdgeListSize = (xs.length : Int) ∧
    ∀ id : Int, 0 ≤ id → id < (d.AddEdges xs).EdgeListSize →
      ∃ x, xs[id.toNat]? = some x ∧
        (d.AddEdges xs).GetEdgeEnd id = .ok (x.m_LeftID, x.m_RightID) := by
  have hl : (d.AddEdges xs).m_EdgeList = xs := by
    rw [AddEdges_m_EdgeList, hd, List.nil_append]
  refine ⟨by simp [EdgeListSize, hl], ?_⟩
  intro id h0 hlt
  obtain ⟨k, rfl⟩ := Int.eq_ofNat_of_zero_le h0
  have hk : k < xs.length := by
    have : (k : Int) < (xs.length : Int) := by simpa [EdgeListSize, hl] using hlt
    exact_mod_cast this
  refine ⟨xs.get ⟨k, hk⟩, by simp [List.getElem?_eq_getElem hk], ?_⟩
  apply GetEdgeEnd_eq
  rw [hl]
  exact vectorAt_ofNat xs k hk

/-- Witness of `GetEdgeEnd_round_trip`: two `AddEdge` calls on a diagram with
an empty edge list. -/
theorem GetEdgeEnd_round_trip_witness :
    blankDiagram.m_EdgeList = [] ∧
    (blankDiagram.AddEdges [edgeA, edgeB]).EdgeListSize = 2 ∧
    (blankDiagram.AddEdges [edgeA, edgeB]).GetEdgeEnd 1 = .ok (1, 2) := by
  have h := GetEdgeEnd_round_trip blankDiagram [edgeA, edgeB] rfl
  refine ⟨rfl, h.1, ?_⟩
  obtain ⟨x, hx, hg⟩ := h.2 1 (by decide) (by rw [h.1]; decide)
  have hxB : x = edgeB := by
    have : (some edgeB : Option (VoronoiEdge (Int × Int))) = some x := hx
    exact (Option.some.inj this).symm
  rw [hg, hxB]
  rfl

theorem some_AddVert (d : VoronoiDiagram2D P) (c : PointsContainer P) (p : P)
    (hc : d.m_PointsContainer = some c) :
    d.AddVert p = .ok { d with m_PointsContainer := some ⟨c.elements ++ [p]⟩ } := by
  simp [AddVert, hc, PointsContainer.InsertElement]

theorem VertexListSize_ok (d : VoronoiDiagram2D P) (n : Int)
    (h : d.VertexListSize = .ok n) :
    ∃ c, d.m_PointsContainer = some c ∧ n = (c.Size : Int) := by
  unfold VertexListSize at h
  cases hc : d.m_PointsContainer with
  | none => rw [hc] at h; cases h
  | some c =>
    rw [hc] at h
    injection h with h
    exact ⟨c, rfl, h.symm⟩

/-- C2, as the code has it: `AddLine`, `AddEdge` and `AddVert` are `void` and
hand back no value; each stores its argument under the id equal to the length
of its sequence before the call: the length grows by one, the getter at the
former length yields the element just added, and the ids that hold an element
are exactly 0 up to the new length (contiguous, 0-based, no gaps).  `AddVert`
is defined whenever the vertex store has a size. -/
theorem Add_id_is_pre_insertion_length (d : VoronoiDiagram2D P) (l : EdgeInfo)
    (e : VoronoiEdge P) (p : P) :
    (d.AddLineCall l = (none, d.AddLine l) ∧
      (d.AddLine l).LineListSize = d.LineListSize + 1 ∧
      (d.AddLine l).GetLine d.LineListSize = .ok l ∧
      ∀ id : Int, (∃ v, (d.AddLine l).GetLine id = .ok v) ↔
        (0 ≤ id ∧ id < d.LineListSize + 1)) ∧
    (d.AddEdgeCall e = (none, d.AddEdge e) ∧
      (d.AddEdge e).EdgeListSize = d.EdgeListSize + 1 ∧
      (d.AddEdge e).GetEdge d.EdgeListSize = .ok e ∧
      ∀ id : Int, (∃ v, (d.AddEdge e).GetEdge id = .ok v) ↔
        (0 ≤ id ∧ id < d.EdgeListSize + 1)) ∧
    ∀ n : Int, d.VertexListSize = .ok n →
      ∃ d1, d.AddVertCall p = .ok (none, d1) ∧ d.AddVert p = .ok d1 ∧
        d1.VertexListSize = .ok (n + 1) ∧ (d1.GetVertex n).1 = .ok p ∧
        ∀ id : Int, (∃ v, (d1.GetVertex id).1 = .ok v) ↔ (0 ≤ id ∧ id < n + 1) := by
  refine ⟨⟨rfl, ?_, ?_, ?_⟩, ⟨rfl, ?_, ?_, ?_⟩, ?_⟩
  · simp [AddLine, LineListSize]
  · exact vectorAt_append_length d.m_LineList l
  · intro id
    have h := vectorAt_ok_iff (d.m_LineList ++ [l]) id
    simpa [GetLine, AddLine, LineListSize] using h
  · simp [AddEdge, EdgeListSize]
  · exact vectorAt_append_length d.m_EdgeList e
  · intro id
    have h := vectorAt_ok_iff (d.m_EdgeList ++ [e]) id
    simpa [GetEdge, AddEdge, EdgeListSize] using h
  · intro n hn
    obtain ⟨c, hc, rfl⟩ := VertexListSize_ok d n hn
    refine ⟨_, ?_, some_AddVert d c p hc, ?_, ?_, ?_⟩
    · simp only [AddVertCall, some_AddVert d c p hc]
    · simp [VertexListSize, PointsContainer.Size]
    · have hlt : c.elements.length < (c.elements ++ [p]).length := by simp
      have h := ElementAt_ofNat ⟨c.elements ++ [p]⟩ c.elements.length hlt
      simpa [GetVertex, PointsContainer.Size] using h
    · intro id
      have h := ElementAt_ok_iff ⟨c.elements ++ [p]⟩ id
      simpa [GetVertex, PointsContainer.Size] using h

/-- Witness of `Add_id_is_pre_insertion_length`: the sample diagram holds
three vertices, two lines and one edge. -/
theorem Add_id_is_pre_insertion_length_witness :
    sampleDiagram.VertexListSize = .ok 3 ∧
    (sampleDiagram.AddLineCall (1, 3)).1 = none ∧
    (sampleDiagram.AddLine (1, 3)).GetLine 2 = .ok (1, 3) ∧
    (sampleDiagram.AddEdge edgeB).GetEdge 1 = .ok edgeB ∧
    ∃ d1, sampleDiagram.AddVertCall (7, 7) = .ok (none, d1) ∧
      d1.VertexListSize = .ok 4 ∧ (d1.GetVertex 3).1 = .ok (7, 7) := by
  have h := Add_id_is_pre_insertion_length sampleDiagram (1, 3) edgeB (7, 7)
  obtain ⟨hl, he, hv⟩ := h
  obtain ⟨d1, h0, _, h2, h3, _⟩ := hv 3 rfl
  exact ⟨rfl, by rw [hl.1], hl.2.2.1, he.2.2.1, d1, h0, h2, h3⟩

/-- C2, counterexample to the claim as stated: on the sample diagram, whose
line, edge and vertex sequences have the lengths 2, 1 and 3, the calls
`AddLine`, `AddEdge` and `AddVert` are defined and none of them returns that
length: being `void`, they return no value. -/
theorem Add_returns_no_id_counterexample :
    sampleDiagram.LineListSize = 2 ∧ (sampleDiagram.AddLineCall (1, 3)).1 ≠ some 2 ∧
    sampleDiagram.EdgeListSize = 1 ∧ (sampleDiagram.AddEdgeCall edgeB).1 ≠ some 1 ∧
    sampleDiagram.VertexListSize = .ok 3 ∧
    ∃ r d1, sampleDiagram.AddVertCall (7, 7) = .ok (r, d1) ∧ r ≠ some 3 := by
  refine ⟨rfl, ?_, rfl, ?_, rfl, none, _, rfl, ?_⟩ <;>
  · intro h
    cases h

/-! ## The neighbour lists -/

theorem NeighborIds_ofNat (d : VoronoiDiagram2D P) (k : Nat)
    (h : k < d.m_CellNeighborsID.length) :
    d.NeighborIds (k : Int) = .ok (d.m_CellNeighborsID.getD k []) := by
  unfold NeighborIds
  rw [vectorAt_ofNat _ k h]
  simp [List.getD_eq_getElem?_getD, List.getElem?_eq_getElem h]

theorem ValidSeed_ofNat (d : VoronoiDiagram2D P) (a : Int) (h : d.ValidSeed a) :
    ∃ k : Nat, a = (k : Int) ∧ k < d.m_CellNeighborsID.length := by
  obtain ⟨h0, h1⟩ := h
  obtain ⟨k, rfl⟩ := Int.eq_ofNat_of_zero_le h0
  exact ⟨k, rfl, by exact_mod_cast h1⟩

theorem getD_set (v : List (List Int)) (a j : Nat) (x : List Int) (ha : a < v.length) :
    (v.set a x).getD j [] = if j = a then x else v.getD j [] := by
  simp only [List.getD_eq_getElem?_getD, List.getElem?_set]
  by_cases h : a = j
  · subst h
    simp [ha]
  · have h2 : ¬ j = a := fun e => h e.symm
    simp [h, h2]

theorem pushBackAt_ofNat (v : List (List Int)) (a : Nat) (y : Int) (ha : a < v.length) :
    pushBackAt v (a : Int) y = .ok (v.set a (v.getD a [] ++ [y])) := by
  unfold pushBackAt
  rw [vectorAt_ofNat v a ha]
  simp [List.getD_eq_getElem?_getD, List.getElem?_eq_getElem ha]

/-- One `AddCellNeighbor((a, b))` with both ids in range: the call is defined,
the table keeps its length, and list `j` gains `b` if `j = a`, then `a` if
`j = b`; no other member changes. -/
theorem AddCellNeighbor_ofNat (d : VoronoiDiagram2D P) (a b : Nat)
    (ha : a < d.m_CellNeighborsID.length) (hb : b < d.m_CellNeighborsID.length) :
    ∃ d1, d.AddCellNeighbor ((a : Int), (b : Int)) = .ok d1 ∧
      d1.m_CellNeighborsID.length = d.m_CellNeighborsID.length ∧
      ∀ j : Nat, d1.m_CellNeighborsID.getD j [] =
        d.m_CellNeighborsID.getD j [] ++
          ((if j = a then [(b : Int)] else []) ++ (if j = b then [(a : Int)] else [])) := by
  obtain ⟨v1, hv1⟩ : ∃ v1, v1 = d.m_CellNeighborsID.set a
      (d.m_CellNeighborsID.getD a [] ++ [(b : Int)]) := ⟨_, rfl⟩
  have hb1 : b < v1.length := by simpa [hv1] using hb
  obtain ⟨v2, hv2⟩ : ∃ v2, v2 = v1.set b (v1.getD b [] ++ [(a : Int)]) := ⟨_, rfl⟩
  refine ⟨{ d with m_CellNeighborsID := v2 }, ?_, ?_, ?_⟩
  · unfold AddCellNeighbor
    simp only []
    rw [pushBackAt_ofNat _ a _ ha, ← hv1]
    simp only []
    rw [pushBackAt_ofNat _ b _ hb1, ← hv2]
  · simp [hv2, hv1]
  · intro j
    simp only []
    rw [hv2, getD_set _ b j _ hb1, hv1, getD_set _ a j _ ha, getD_set _ a b _ ha]
    by_cases hja : j = a <;> by_cases hjb : j = b
    · subst hja
      subst hjb
      simp
    · subst hja
      have hne : ¬ b = j := fun e => hjb e.symm
      simp [hjb]
    · subst hjb
      simp [hja]
    · simp [hja, hjb]

/-- A sequence of `AddCellNeighbor` calls with all ids in range is defined,
keeps the length of the table, and only extends each neighbour list. -/
theorem AddCellNeighbors_extends (xs : List EdgeInfo) :
    ∀ d : VoronoiDiagram2D P, (∀ x ∈ xs, d.ValidSeed x.1 ∧ d.ValidSeed x.2) →
    ∃ d2, d.AddCellNeighbors xs = .ok d2 ∧
      d2.m_CellNeighborsID.length = d.m_CellNeighborsID.length ∧
      ∀ j : Nat, ∃ t, d2.m_CellNeighborsID.getD j [] = d.m_CellNeighborsID.getD j [] ++ t := by
  induction xs with
  | nil =>
    intro d _
    exact ⟨d, rfl, rfl, fun j => ⟨[], by simp⟩⟩
  | cons x xs ih =>
    intro d hx
    obtain ⟨hx1, hx2⟩ := hx x (List.mem_cons_self x xs)
    obtain ⟨a, ha, hal⟩ := ValidSeed_ofNat d x.1 hx1
    obtain ⟨b, hb, hbl⟩ := ValidSeed_ofNat d x.2 hx2
    have hxe : x = ((a : Int), (b : Int)) := Prod.ext ha hb
    obtain ⟨d1, h1, hlen1, hget1⟩ := AddCellNeighbor_ofNat d a b hal hbl
    have hv : ∀ y ∈ xs, d1.ValidSeed y.1 ∧ d1.ValidSeed y.2 := by
      intro y hy
      have := hx y (List.mem_cons_of_mem x hy)
      simpa [ValidSeed, hlen1] using this
    obtain ⟨d2, h2, hlen2, hget2⟩ := ih d1 hv
    refine ⟨d2, ?_, by rw [hlen2, hlen1], ?_⟩
    · rw [hxe]
      simp only [AddCellNeighbors, h1]
      exact h2
    · intro j
      obtain ⟨t, ht⟩ := hget2 j
      refine ⟨((if j = a then [(b : Int)] else []) ++ (if j = b then [(a : Int)] else [])) ++ t, ?_⟩
      rw [ht, hget1 j, List.append_assoc]

theorem count_ite_singleton (c : Prop) [Decidable c] (b j : Nat) :
    List.count (j : Int) (if c then [(b : Int)] else []) = if c ∧ j = b then 1 else 0 := by
  by_cases hc : c
  · by_cases hj : j = b
    · subst hj
      simp [hc]
    · have hne : ¬ (b : Int) = (j : Int) := by
        intro e
        exact hj (by exact_mod_cast e.symm)
      simp [hc, hj, List.count_singleton, hne]
  · simp [hc]

/-- The effect of one `AddCellNeighbor((a, b))` on the number of occurrences
of a seed `j` in the list of a seed `i`. -/
theorem AddCellNeighbor_count (d : VoronoiDiagram2D P) (a b : Nat)
    (ha : a < d.m_CellNeighborsID.length) (hb : b < d.m_CellNeighborsID.length) :
    ∃ d1, d.AddCellNeighbor ((a : Int), (b : Int)) = .ok d1 ∧
      d1.m_CellNeighborsID.length = d.m_CellNeighborsID.length ∧
      ∀ i j : Nat, (d1.m_CellNeighborsID.getD i []).count (j : Int) =
        (d.m_CellNeighborsID.getD i []).count (j : Int)
          + (if i = a ∧ j = b then 1 else 0) + (if i = b ∧ j = a then 1 else 0) := by
  obtain ⟨d1, h1, hlen, hget⟩ := AddCellNeighbor_ofNat d a b ha hb
  refine ⟨d1, h1, hlen, ?_⟩
  intro i j
  rw [hget i, List.count_append, List.count_append, count_ite_singleton,
    count_ite_singleton, Nat.add_assoc]

/-- Symmetry of the occurrence counts is kept by any sequence of
`AddCellNeighbor` calls with ids in range, and such a sequence is defined. -/
theorem AddCellNeighbors_symmetric (xs : List EdgeInfo) :
    ∀ d : VoronoiDiagram2D P, (∀ x ∈ xs, d.ValidSeed x.1 ∧ d.ValidSeed x.2) →
    (∀ i j : Nat, (d.m_CellNeighborsID.getD i []).count (j : Int) =
      (d.m_CellNeighborsID.getD j []).count (i : Int)) →
    ∃ d2, d.AddCellNeighbors xs = .ok d2 ∧
      d2.m_CellNeighborsID.length = d.m_CellNeighborsID.length ∧
      ∀ i j : Nat, (d2.m_CellNeighborsID.getD i []).count (j : Int) =
        (d2.m_CellNeighborsID.getD j []).count (i : Int) := by
  induction xs with
  | nil =>
    intro d _ hsym
    exact ⟨d, rfl, rfl, hsym⟩
  | cons x xs ih =>
    intro d hx hsym
    obtain ⟨hx1, hx2⟩ := hx x (List.mem_cons_self x xs)
    obtain ⟨a, ha, hal⟩ := ValidSeed_ofNat d x.1 hx1
    obtain ⟨b, hb, hbl⟩ := ValidSeed_ofNat d x.2 hx2
    have hxe : x = ((a : Int), (b : Int)) := Prod.ext ha hb
    obtain ⟨d1, h1, hlen1, hcount⟩ := AddCellNeighbor_count d a b hal hbl
    have hv : ∀ y ∈ xs, d1.ValidSeed y.1 ∧ d1.ValidSeed y.2 := by
      intro y hy
      have := hx y (List.mem_cons_of_mem x hy)
      simpa [ValidSeed, hlen1] using this
    have hsym1 : ∀ i j : Nat, (d1.m_CellNeighborsID.getD i []).count (j : Int) =
        (d1.m_CellNeighborsID.getD j []).count (i : Int) := by
      intro i j
      rw [hcount i j, hcount j i, hsym i j]
      have e1 : (if j = a ∧ i = b then 1 else 0) = (if i = b ∧ j = a then 1 else 0) :=
        if_congr and_comm rfl rfl
      have e2 : (if j = b ∧ i = a then 1 else 0) = (if i = a ∧ j = b then 1 else 0) :=
        if_congr and_comm rfl rfl
      rw [e1, e2]
      omega
    obtain ⟨d2, h2, hlen2, hsym2⟩ := ih d1 hv hsym1
    refine ⟨d2, ?_, by rw [hlen2, hlen1], hsym2⟩
    rw [hxe]
    simp only [AddCellNeighbors, h1]
    exact h2

theorem IsNeighbor_ofNat (d : VoronoiDiagram2D P) (a : Nat) (b : Int)
    (ha : a < d.m_CellNeighborsID.length) (hb : b ∈ d.m_CellNeighborsID.getD a []) :
    d.IsNeighbor (a : Int) b :=
  ⟨_, NeighborIds_ofNat d a ha, hb⟩

/-- C3: for seed ids `a`, `b` in range, `AddCellNeighbor((a, b))` is defined,
right after it `b` is in the neighbour list of `a` and `a` in that of `b`, and
both memberships still hold after any further `AddCellNeighbor` calls (with
ids in range, which are defined too). -/
theorem AddCellNeighbor_inserts_both (d : VoronoiDiagram2D P) (a b : Int)
    (xs : List EdgeInfo) (ha : d.ValidSeed a) (hb : d.ValidSeed b)
    (hxs : ∀ x ∈ xs, d.ValidSeed x.1 ∧ d.ValidSeed x.2) :
    ∃ d1 d2, d.AddCellNeighbor (a, b) = .ok d1 ∧
      d1.IsNeighbor a b ∧ d1.IsNeighbor b a ∧
      d1.AddCellNeighbors xs = .ok d2 ∧
      d2.IsNeighbor a b ∧ d2.IsNeighbor b a := by
  obtain ⟨a, rfl, hal⟩ := ValidSeed_ofNat d a ha
  obtain ⟨b, rfl, hbl⟩ := ValidSeed_ofNat d b hb
  obtain ⟨d1, h1, hlen1, hget1⟩ := AddCellNeighbor_ofNat d a b hal hbl
  have hv : ∀ y ∈ xs, d1.ValidSeed y.1 ∧ d1.ValidSeed y.2 := by
    intro y hy
    have := hxs y hy
    simpa [ValidSeed, hlen1] using this
  obtain ⟨d2, h2, hlen2, hget2⟩ := AddCellNeighbors_extends xs d1 hv
  have hab : (b : Int) ∈ d1.m_CellNeighborsID.getD a [] := by
    rw [hget1 a]
    simp
  have hba : (a : Int) ∈ d1.m_CellNeighborsID.getD b [] := by
    rw [hget1 b]
    simp
  refine ⟨d1, d2, h1, ?_, ?_, h2, ?_, ?_⟩
  · exact IsNeighbor_ofNat d1 a b (by rw [hlen1]; exact hal) hab
  · exact IsNeighbor_ofNat d1 b a (by rw [hlen1]; exact hbl) hba
  · obtain ⟨t, ht⟩ := hget2 a
    exact IsNeighbor_ofNat d2 a b (by rw [hlen2, hlen1]; exact hal)
      (by rw [ht]; exact List.mem_append_left t hab)
  · obtain ⟨t, ht⟩ := hget2 b
    exact IsNeighbor_ofNat d2 b a (by rw [hlen2, hlen1]; exact hbl)
      (by rw [ht]; exact List.mem_append_left t hba)

/-- C4: from all-empty neighbour lists of `n` seeds, any finite sequence of
`AddCellNeighbor` calls with seed ids in `[0, n)` is defined and ends in a
state where, for all seeds `a` and `b`, the number of occurrences of `b` in
the neighbour list of `a` equals that of `a` in the list of `b`; so `b` is a
neighbour of `a` if and only if `a` is a neighbour of `b`. -/
theorem neighbor_graph_symmetric (d : VoronoiDiagram2D P) (n : Nat)
    (xs : List EdgeInfo) (hd : d.m_CellNeighborsID = List.replicate n [])
    (hxs : ∀ x ∈ xs, (0 ≤ x.1 ∧ x.1 < (n : Int)) ∧ (0 ≤ x.2 ∧ x.2 < (n : Int))) :
    ∃ d2, d.AddCellNeighbors xs = .ok d2 ∧
      ∀ a b : Int, 0 ≤ a → a < (n : Int) → 0 ≤ b → b < (n : Int) →
        ∃ la lb, d2.NeighborIds a = .ok la ∧ d2.NeighborIds b = .ok lb ∧
          la.count b = lb.count a ∧ (b ∈ la ↔ a ∈ lb) := by
  have hlen : d.m_CellNeighborsID.length = n := by simp [hd]
  have hv : ∀ x ∈ xs, d.ValidSeed x.1 ∧ d.ValidSeed x.2 := by
    intro x hx
    simpa [ValidSeed, hlen] using hxs x hx
  have hsym : ∀ i j : Nat, (d.m_CellNeighborsID.getD i []).count (j : Int) =
      (d.m_CellNeighborsID.getD j []).count (i : Int) := by
    intro i j
    have hnil : ∀ k : Nat, (List.replicate n ([] : List Int)).getD k [] = [] := by
      intro k
      rw [List.getD_eq_getElem?_getD, List.getElem?_replicate]
      split <;> rfl
    rw [hd, hnil i, hnil j]
    rfl
  obtain ⟨d2, h2, hlen2, hsym2⟩ := AddCellNeighbors_symmetric xs d hv hsym
  refine ⟨d2, h2, ?_⟩
  intro a b ha0 han hb0 hbn
  obtain ⟨a, rfl⟩ := Int.eq_ofNat_of_zero_le ha0
  obtain ⟨b, rfl⟩ := Int.eq_ofNat_of_zero_le hb0
  have hal : a < d2.m_CellNeighborsID.length := by
    rw [hlen2, hlen]
    exact_mod_cast han
  have hbl : b < d2.m_CellNeighborsID.length := by
    rw [hlen2, hlen]
    exact_mod_cast hbn
  refine ⟨_, _, NeighborIds_ofNat d2 a hal, NeighborIds_ofNat d2 b hbl, hsym2 a b, ?_⟩
  rw [← List.count_pos_iff, ← List.count_pos_iff, hsym2 a b]

/-- Witness of `AddCellNeighbor_inserts_both`: the pair (0, 1) on four seeds,
followed by the pair (1, 2). -/
theorem AddCellNeighbor_inserts_both_witness :
    seededDiagram.ValidSeed 0 ∧ seededDiagram.ValidSeed 1 ∧
    ∃ d1 d2, seededDiagram.AddCellNeighbor (0, 1) = .ok d1 ∧
      d1.IsNeighbor 0 1 ∧ d1.IsNeighbor 1 0 ∧
      d1.AddCellNeighbors [(1, 2)] = .ok d2 ∧
      d2.IsNeighbor 0 1 ∧ d2.IsNeighbor 1 0 :=
  ⟨⟨by decide, by decide⟩, ⟨by decide, by decide⟩,
    AddCellNeighbor_inserts_both seededDiagram 0 1 [(1, 2)]
      ⟨by decide, by decide⟩ ⟨by decide, by decide⟩
      (by
        intro x hx
        rw [List.mem_singleton] at hx
        subst hx
        exact ⟨⟨by decide, by decide⟩, ⟨by decide, by decide⟩⟩)⟩

/-- Witness of `neighbor_graph_symmetric`: the pairs (0, 1) and (0, 2) added
to four seeds with empty neighbour lists. -/
theorem neighbor_graph_symmetric_witness :
    seededDiagram.m_CellNeighborsID = List.replicate 4 [] ∧
    ∃ d2, seededDiagram.AddCellNeighbors [(0, 1), (0, 2)] = .ok d2 ∧
      ∀ a b : Int, 0 ≤ a → a < ((4 : Nat) : Int) → 0 ≤ b → b < ((4 : Nat) : Int) →
        ∃ la lb, d2.NeighborIds a = .ok la ∧ d2.NeighborIds b = .ok lb ∧
          la.count b = lb.count a ∧ (b ∈ la ↔ a ∈ lb) :=
  ⟨rfl, neighbor_graph_symmetric seededDiagram 4 [(0, 1), (0, 2)] rfl
    (by
      intro x hx
      simp only [List.mem_cons, List.mem_singleton, List.not_mem_nil, or_false] at hx
      rcases hx with rfl | rfl <;> decide)⟩

theorem NeighborCount_ofNat (d : VoronoiDiagram2D P) (a : Nat) (b : Int) (m : Nat)
    (ha : a < d.m_CellNeighborsID.length) :
    d.NeighborCount (a : Int) b m ↔ (d.m_CellNeighborsID.getD a []).count b = m := by
  unfold NeighborCount
  rw [NeighborIds_ofNat d a ha]
  constructor
  · rintro ⟨l, hl, hc⟩
    injection hl with hl
    rw [hl]
    exact hc
  · intro h
    exact ⟨_, rfl, h⟩

/-- C9, as the code has it: `AddCellNeighbor` performs no deduplication.  For
seed ids `a`, `b` in range, `k` calls `AddCellNeighbor((a, b))` on a state with
`m` occurrences of `b` in the list of `a` (and `m1` of `a` in the list of `b`)
are defined and leave `m + k` (and `m1 + k`) occurrences when `a ≠ b`, and
`m + 2 * k` when `a = b`, where each call pushes `a` twice on its own list. -/
theorem AddCellNeighbor_no_deduplication (k : Nat) :
    ∀ (d : VoronoiDiagram2D P) (a b : Int) (m m1 : Nat),
    d.ValidSeed a → d.ValidSeed b → d.NeighborCount a b m → d.NeighborCount b a m1 →
    ∃ d2, d.AddCellNeighbors (List.replicate k (a, b)) = .ok d2 ∧
      d2.NeighborCount a b (m + k * (if a = b then 2 else 1)) ∧
      d2.NeighborCount b a (m1 + k * (if a = b then 2 else 1)) := by
  induction k with
  | zero =>
    intro d a b m m1 _ _ hm hm1
    exact ⟨d, rfl, by simpa using hm, by simpa using hm1⟩
  | succ k ih =>
    intro d a b m m1 ha hb hm hm1
    obtain ⟨a0, rfl, hal⟩ := ValidSeed_ofNat d a ha
    obtain ⟨b0, rfl, hbl⟩ := ValidSeed_ofNat d b hb
    obtain ⟨d1, h1, hlen1, hcount⟩ := AddCellNeighbor_count d a0 b0 hal hbl
    have hal1 : a0 < d1.m_CellNeighborsID.length := by rw [hlen1]; exact hal
    have hbl1 : b0 < d1.m_CellNeighborsID.length := by rw [hlen1]; exact hbl
    have hc : (if a0 = b0 ∧ b0 = a0 then 1 else 0) = (if a0 = b0 then 1 else 0) :=
      if_congr ⟨fun h => h.1, fun h => ⟨h, h.symm⟩⟩ rfl rfl
    have hc1 : (if b0 = a0 ∧ a0 = b0 then 1 else 0) = (if a0 = b0 then 1 else 0) :=
      if_congr ⟨fun h => h.2, fun h => ⟨h.symm, h⟩⟩ rfl rfl
    have hab1 : d1.NeighborCount (a0 : Int) (b0 : Int) (m + 1 + (if a0 = b0 then 1 else 0)) := by
      rw [NeighborCount_ofNat d1 a0 _ _ hal1, hcount a0 b0]
      rw [NeighborCount_ofNat d a0 _ _ hal] at hm
      simp only [and_self, if_true, hm, hc]
    have hba1 : d1.NeighborCount (b0 : Int) (a0 : Int) (m1 + (if a0 = b0 then 1 else 0) + 1) := by
      rw [NeighborCount_ofNat d1 b0 _ _ hbl1, hcount b0 a0]
      rw [NeighborCount_ofNat d b0 _ _ hbl] at hm1
      simp only [and_self, if_true, hm1, hc1]
    obtain ⟨d2, h2, hab2, hba2⟩ := ih d1 (a0 : Int) (b0 : Int) _ _
      ⟨Int.ofNat_nonneg a0, by exact_mod_cast hal1⟩
      ⟨Int.ofNat_nonneg b0, by exact_mod_cast hbl1⟩ hab1 hba1
    refine ⟨d2, ?_, ?_, ?_⟩
    · simp only [List.replicate_succ, AddCellNeighbors, h1]
      exact h2
    · have e : m + 1 + (if a0 = b0 then 1 else 0) + k * (if (a0 : Int) = (b0 : Int) then 2 else 1)
          = m + (k + 1) * (if (a0 : Int) = (b0 : Int) then 2 else 1) := by
        by_cases h : a0 = b0
        · simp [h]
          ring
        · simp [h]
          ring
      rw [← e]
      exact hab2
    · have e : m1 + (if a0 = b0 then 1 else 0) + 1 + k * (if (a0 : Int) = (b0 : Int) then 2 else 1)
          = m1 + (k + 1) * (if (a0 : Int) = (b0 : Int) then 2 else 1) := by
        by_cases h : a0 = b0
        · simp [h]
          ring
        · simp [h]
          ring
      rw [← e]
      exact hba2

/-- Witness of `AddCellNeighbor_no_deduplication`: the sample diagram already
lists seed 1 once for seed 0; two more calls with (0, 1) make it three. -/
theorem AddCellNeighbor_no_deduplication_witness :
    sampleDiagram.ValidSeed 0 ∧ sampleDiagram.ValidSeed 1 ∧
    sampleDiagram.NeighborCount 0 1 1 ∧ sampleDiagram.NeighborCount 1 0 1 ∧
    ∃ d2, sampleDiagram.AddCellNeighbors (List.replicate 2 (0, 1)) = .ok d2 ∧
      d2.NeighborCount 0 1 3 ∧ d2.NeighborCount 1 0 3 :=
  ⟨⟨by decide, by decide⟩, ⟨by decide, by decide⟩, ⟨[1], rfl, by decide⟩, ⟨[0], rfl, by decide⟩,
    AddCellNeighbor_no_deduplication 2 sampleDiagram 0 1 1 1
      ⟨by decide, by decide⟩ ⟨by decide, by decide⟩ ⟨[1], rfl, by decide⟩ ⟨[0], rfl, by decide⟩⟩

/-- C9, counterexample to the claim as stated: with `a = b = 0`, one call
`AddCellNeighbor((0, 0))` on an empty list of seed 0 leaves two occurrences of
0 in that list, not `m + k = 0 + 1`. -/
theorem AddCellNeighbor_self_pair_counterexample :
    seededDiagram.ValidSeed 0 ∧ seededDiagram.NeighborCount 0 0 0 ∧
    ∃ d2, seededDiagram.AddCellNeighbors (List.replicate 1 (0, 0)) = .ok d2 ∧
      d2.NeighborIds 0 = .ok [0, 0] ∧ ¬ d2.NeighborCount 0 0 (0 + 1) := by
  refine ⟨⟨by decide, by decide⟩, ⟨[], rfl, by decide⟩, _, rfl, rfl, ?_⟩
  rintro ⟨l, hl, hc⟩
  have hl2 : (Except.ok [0, 0] : Except Fault (List Int)) = Except.ok l := hl
  injection hl2 with hl2
  subst hl2
  revert hc
  decide

/-! ## The vertex store -/

/-- C5: from any state of the vertex store, null container included,
`VertexListClear()` leaves size 0, and a following `AddVert(p)` is defined and
gives `p` the id 0: the size is then 1 and `GetVertex(0)` is `p`. -/
theorem VertexListClear_then_AddVert (d : VoronoiDiagram2D P) (p : P) :
    d.VertexListClear.VertexListSize = .ok 0 ∧
    ∃ d1, d.VertexListClear.AddVert p = .ok d1 ∧
      d1.VertexListSize = .ok 1 ∧ (d1.GetVertex 0).1 = .ok p := by
  refine ⟨rfl, _, some_AddVert d.VertexListClear ⟨[]⟩ p rfl, rfl, rfl⟩

theorem with_same_container (d : VoronoiDiagram2D P) (c : PointsContainer P)
    (hc : d.m_PointsContainer = some c) :
    { d with m_PointsContainer := some c } = d := by
  cases d
  simp only [] at hc
  subst hc
  rfl

/-- C6: `GetVertex(id)` is a bounds-checked read.  When the vertex store has
size `n`, every id that is negative or at least `n` makes `GetVertex(id)` fail
with the out-of-range error, not return a point, and the diagram after the
call is the one before it. -/
theorem GetVertex_bounds_checked (d : VoronoiDiagram2D P) (n id : Int)
    (hn : d.VertexListSize = .ok n) (hid : id < 0 ∨ n ≤ id) :
    d.GetVertex id = (.error Fault.outOfRange, d) := by
  obtain ⟨c, hc, rfl⟩ := VertexListSize_ok d n hn
  unfold GetVertex
  rw [hc]
  simp only []
  rw [ElementAt_out c id hid, ElementAt_snd, with_same_container d c hc]

/-- Witness of `GetVertex_bounds_checked`: the sample diagram holds the
vertices 0, 1, 2; the id 3 was never assigned. -/
theorem GetVertex_bounds_checked_witness :
    sampleDiagram.VertexListSize = .ok 3 ∧ ((3 : Int) < 0 ∨ (3 : Int) ≤ 3) ∧
    sampleDiagram.GetVertex 3 = (.error Fault.outOfRange, sampleDiagram) :=
  ⟨rfl, Or.inr (le_refl 3),
    GetVertex_bounds_checked sampleDiagram 3 3 rfl (Or.inr (le_refl 3))⟩

/-! ## The line and edge lists -/

/-- C7, as the code has it: the edge and line accessors index their vector
without a check.  For an id at or beyond `EdgeListSize()`, `GetEdge`,
`GetEdgeEnd` and `GetEdgeLineID` have no defined result, and for an id at or
beyond `LineListSize()` neither has `GetLine`: no value is returned and no
out-of-range error is reported. -/
theorem Get_out_of_range_undefined (d : VoronoiDiagram2D P) (i j : Int)
    (hi : d.EdgeListSize ≤ i) (hj : d.LineListSize ≤ j) :
    d.GetEdge i = .error Fault.undefined ∧
    d.GetEdgeEnd i = .error Fault.undefined ∧
    d.GetEdgeLineID i = .error Fault.undefined ∧
    d.GetLine j = .error Fault.undefined := by
  have he := vectorAt_of_le d.m_EdgeList i hi
  have hl := vectorAt_of_le d.m_LineList j hj
  refine ⟨he, ?_, ?_, hl⟩
  · simp [GetEdgeEnd, he]
  · simp [GetEdgeLineID, he]

/-- Witness of `Get_out_of_range_undefined`: the sample diagram has one edge
and two lines. -/
theorem Get_out_of_range_undefined_witness :
    sampleDiagram.EdgeListSize ≤ 1 ∧ sampleDiagram.LineListSize ≤ 2 ∧
    sampleDiagram.GetEdge 1 = .error Fault.undefined ∧
    sampleDiagram.GetEdgeEnd 1 = .error Fault.undefined ∧
    sampleDiagram.GetEdgeLineID 1 = .error Fault.undefined ∧
    sampleDiagram.GetLine 2 = .error Fault.undefined :=
  ⟨by decide, by decide,
    Get_out_of_range_undefined sampleDiagram 1 2 (by decide) (by decide)⟩

/-- C7, counterexample to the claim as stated: on the sample diagram, with one
edge and two lines, the ids 1 and 2 are out of range, and none of the four
accessors fails with the out-of-range error. -/
theorem Get_out_of_range_counterexample :
    sampleDiagram.EdgeListSize ≤ 1 ∧ sampleDiagram.LineListSize ≤ 2 ∧
    sampleDiagram.GetEdge 1 ≠ .error Fault.outOfRange ∧
    sampleDiagram.GetEdgeEnd 1 ≠ .error Fault.outOfRange ∧
    sampleDiagram.GetEdgeLineID 1 ≠ .error Fault.outOfRange ∧
    sampleDiagram.GetLine 2 ≠ .error Fault.outOfRange := by
  refine ⟨by decide, by decide, ?_, ?_, ?_, ?_⟩ <;>
  · intro h
    injection h with h
    cases h

/-- C8: from any state, `LineListClear()` leaves `LineListSize()` 0 and the
next `AddLine(x)` gets the id 0; `EdgeListClear()` leaves `EdgeListSize()` 0
and the next `AddEdge(e)` gets the id 0. -/
theorem Clear_restarts_ids (d : VoronoiDiagram2D P) (x : EdgeInfo) (e : VoronoiEdge P) :
    (d.LineListClear.LineListSize = 0 ∧
      (d.LineListClear.AddLine x).LineListSize = 1 ∧
      (d.LineListClear.AddLine x).GetLine 0 = .ok x) ∧
    (d.EdgeListClear.EdgeListSize = 0 ∧
      (d.EdgeListClear.AddEdge e).EdgeListSize = 1 ∧
      (d.EdgeListClear.AddEdge e).GetEdge 0 = .ok e) :=
  ⟨⟨rfl, rfl, rfl⟩, ⟨rfl, rfl, rfl⟩⟩

/-! ## References between the lists -/

theorem vectorAt_mem {α : Type} (v : List α) (id : Int) (a : α)
    (h : vectorAt v id = .ok a) : a ∈ v := by
  have hr := (vectorAt_ok_iff v id).mp ⟨a, h⟩
  obtain ⟨k, rfl⟩ := Int.eq_ofNat_of_zero_le hr.1
  have hk : k < v.length := by exact_mod_cast hr.2
  rw [vectorAt_ofNat v k hk] at h
  injection h with h
  rw [← h]
  exact List.get_mem v k hk

theorem updateCellAt_mem (v v1 : List PolygonCell) (i : Int) (f : PolygonCell → PolygonCell)
    (h : updateCellAt v i f = .ok v1) :
    ∀ r ∈ v1, r ∈ v ∨ ∃ c ∈ v, r = f c := by
  unfold updateCellAt at h
  cases hc : vectorAt v i with
  | error e => rw [hc] at h; cases h
  | ok c =>
    rw [hc] at h
    injection h with h
    intro r hr
    rw [← h] at hr
    rcases List.mem_or_eq_of_mem_set hr with hm | he
    · exact Or.inl hm
    · exact Or.inr ⟨c, vectorAt_mem v i c hc, he⟩

theorem VertexIdBelowSize_congr (d d1 : VoronoiDiagram2D P) (x : Int)
    (hp : d1.m_PointsContainer = d.m_PointsContainer) :
    d1.VertexIdBelowSize x ↔ d.VertexIdBelowSize x := by
  unfold VertexIdBelowSize VertexListSize
  rw [hp]

theorem VertexIdBelowSize_AddVert (d d1 : VoronoiDiagram2D P) (p : P) (x : Int)
    (h : d.AddVert p = .ok d1) (hx : d.VertexIdBelowSize x) : d1.VertexIdBelowSize x := by
  obtain ⟨n, hn, hlt⟩ := hx
  obtain ⟨c, hc, rfl⟩ := VertexListSize_ok d n hn
  rw [some_AddVert d c p hc] at h
  injection h with h
  subst h
  refine ⟨((c.elements ++ [p]).length : Int), rfl, ?_⟩
  unfold PointsContainer.Size at hlt
  simp only [List.length_append, List.length_singleton, Nat.cast_add, Nat.cast_one]
  omega

theorem AddVert_fields (d d1 : VoronoiDiagram2D P) (p : P) (h : d.AddVert p = .ok d1) :
    d1.m_EdgeList = d.m_EdgeList ∧ d1.m_LineList = d.m_LineList ∧
    d1.m_VoronoiRegions = d.m_VoronoiRegions := by
  unfold AddVert at h
  cases hc : d.m_PointsContainer with
  | none => rw [hc] at h; cases h
  | some c =>
    rw [hc] at h
    simp only [PointsContainer.InsertElement, if_true] at h
    injection h with h
    subst h
    exact ⟨rfl, rfl, rfl⟩

theorem AddCellNeighbor_fields (d d1 : VoronoiDiagram2D P) (x : EdgeInfo)
    (h : d.AddCellNeighbor x = .ok d1) :
    d1.m_EdgeList = d.m_EdgeList ∧ d1.m_LineList = d.m_LineList ∧
    d1.m_VoronoiRegions = d.m_VoronoiRegions ∧
    d1.m_PointsContainer = d.m_PointsContainer := by
  unfold AddCellNeighbor at h
  cases h1 : pushBackAt d.m_CellNeighborsID x.1 x.2 with
  | error e => rw [h1] at h; cases h
  | ok v1 =>
    rw [h1] at h
    simp only [] at h
    cases h2 : pushBackAt v1 x.2 x.1 with
    | error e => rw [h2] at h; cases h
    | ok v2 =>
      rw [h2] at h
      injection h with h
      subst h
      exact ⟨rfl, rfl, rfl, rfl⟩

theorem region_update_fields (d d1 : VoronoiDiagram2D P) (i : Int)
    (f : PolygonCell → PolygonCell)
    (h : (match updateCellAt d.m_VoronoiRegions i f with
      | .ok v => (.ok { d with m_VoronoiRegions := v } : Except Fault (VoronoiDiagram2D P))
      | .error e => .error e) = .ok d1) :
    d1.m_EdgeList = d.m_EdgeList ∧ d1.m_LineList = d.m_LineList ∧
    d1.m_PointsContainer = d.m_PointsContainer ∧
    ∀ r ∈ d1.m_VoronoiRegions, r ∈ d.m_VoronoiRegions ∨ ∃ c ∈ d.m_VoronoiRegions, r = f c := by
  cases hu : updateCellAt d.m_VoronoiRegions i f with
  | error e => rw [hu] at h; cases h
  | ok v =>
    rw [hu] at h
    injection h with h
    subst h
    exact ⟨rfl, rfl, rfl, updateCellAt_mem _ _ i f hu⟩

/-- A call that keeps references backward keeps the diagram free of forward
references. -/
theorem NoForwardReferences_step (c : Call P) (d d1 : VoronoiDiagram2D P)
    (hinv : d.NoForwardReferences) (hc : c.Respects d) (hrun : c.run d = .ok d1) :
    d1.NoForwardReferences := by
  obtain ⟨hedges, hregions⟩ := hinv
  cases c with
  | AddVert x =>
    obtain ⟨he, hl, hr⟩ := AddVert_fields d d1 x hrun
    refine ⟨?_, ?_⟩
    · intro e hmem
      rw [he] at hmem
      obtain ⟨h1, h2, h3⟩ := hedges e hmem
      refine ⟨?_, VertexIdBelowSize_AddVert d d1 x _ hrun h2,
        VertexIdBelowSize_AddVert d d1 x _ hrun h3⟩
      simpa [LineListSize, hl] using h1
    · intro r hmem y hy
      rw [hr] at hmem
      exact VertexIdBelowSize_AddVert d d1 x _ hrun (hregions r hmem y hy)
  | AddLine x =>
    injection hrun with hrun
    subst hrun
    refine ⟨?_, hregions⟩
    intro e hmem
    obtain ⟨h1, h2, h3⟩ := hedges e hmem
    refine ⟨?_, h2, h3⟩
    have h1a : e.m_LineID < (d.m_LineList.length : Int) := h1
    simp only [LineListSize, AddLine, List.length_append, List.length_singleton,
      Nat.cast_add, Nat.cast_one]
    omega
  | AddEdge x =>
    injection hrun with hrun
    subst hrun
    refine ⟨?_, hregions⟩
    intro e hmem
    have hmem1 : e ∈ d.m_EdgeList ++ [x] := hmem
    rw [List.mem_append, List.mem_singleton] at hmem1
    rcases hmem1 with hm | rfl
    · exact hedges e hm
    · exact hc
  | AddCellNeighbor x =>
    obtain ⟨he, hl, hr, hp⟩ := AddCellNeighbor_fields d d1 x hrun
    refine ⟨?_, ?_⟩
    · intro e hmem
      rw [he] at hmem
      obtain ⟨h1, h2, h3⟩ := hedges e hmem
      refine ⟨?_, (VertexIdBelowSize_congr d d1 _ hp).mpr h2,
        (VertexIdBelowSize_congr d d1 _ hp).mpr h3⟩
      simpa [LineListSize, hl] using h1
    · intro r hmem y hy
      rw [hr] at hmem
      exact (VertexIdBelowSize_congr d d1 _ hp).mpr (hregions r hmem y hy)
  | VoronoiRegionAddPointId id x =>
    obtain ⟨he, hl, hp, hr⟩ := region_update_fields d d1 id _ hrun
    refine ⟨?_, ?_⟩
    · intro e hmem
      rw [he] at hmem
      obtain ⟨h1, h2, h3⟩ := hedges e hmem
      refine ⟨?_, (VertexIdBelowSize_congr d d1 _ hp).mpr h2,
        (VertexIdBelowSize_congr d d1 _ hp).mpr h3⟩
      simpa [LineListSize, hl] using h1
    · intro r hmem y hy
      rw [VertexIdBelowSize_congr d d1 _ hp]
      rcases hr r hmem with hm | ⟨c, hcm, rfl⟩
      · exact hregions r hm y hy
      · have hy1 : y ∈ c.m_PointIds ++ [x] := hy
        rw [List.mem_append, List.mem_singleton] at hy1
        rcases hy1 with hy1 | rfl
        · exact hregions c hcm y hy1
        · exact hc
  | ClearRegion i =>
    obtain ⟨he, hl, hp, hr⟩ := region_update_fields d d1 i _ hrun
    refine ⟨?_, ?_⟩
    · intro e hmem
      rw [he] at hmem
      obtain ⟨h1, h2, h3⟩ := hedges e hmem
      refine ⟨?_, (VertexIdBelowSize_congr d d1 _ hp).mpr h2,
        (VertexIdBelowSize_congr d d1 _ hp).mpr h3⟩
      simpa [LineListSize, hl] using h1
    · intro r hmem y hy
      rw [VertexIdBelowSize_congr d d1 _ hp]
      rcases hr r hmem with hm | ⟨c, _, rfl⟩
      · exact hregions r hm y hy
      · cases hy
  | LineListClear =>
    injection hrun with hrun
    subst hrun
    refine ⟨?_, hregions⟩
    intro e hmem
    have hnil : d.m_EdgeList = [] := hc
    have hmem1 : e ∈ d.m_EdgeList := hmem
    rw [hnil] at hmem1
    cases hmem1
  | EdgeListClear =>
    injection hrun with hrun
    subst hrun
    refine ⟨?_, hregions⟩
    intro e hmem
    cases hmem
  | VertexListClear =>
    injection hrun with hrun
    subst hrun
    obtain ⟨hnil, hpts⟩ := hc
    refine ⟨?_, ?_⟩
    · intro e hmem
      have hmem1 : e ∈ d.m_EdgeList := hmem
      rw [hnil] at hmem1
      cases hmem1
    · intro r hmem y hy
      have hmem1 : r ∈ d.m_VoronoiRegions := hmem
      rw [hpts r hmem1] at hy
      cases hy

theorem NoForwardReferences_of_empty (d : VoronoiDiagram2D P) (h : d.IsEmptyDiagram) :
    d.NoForwardReferences := by
  obtain ⟨_, he, _, hr⟩ := h
  refine ⟨?_, ?_⟩
  · intro e hmem
    rw [he] at hmem
    cases hmem
  · intro r hmem y hy
    rw [hr r hmem] at hy
    cases hy

end VoronoiDiagram2D

/-- C10, as the code has it: the mutators store any id they are given, and
the invariant is the caller's.  In every state reached from the empty diagram
by calls that keep references backward (`AddEdge` and
`VoronoiRegionAddPointId` only with ids below the current sizes,
`LineListClear` and `VertexListClear` only while nothing refers to the list
cleared; `AddVert`, `AddLine`, `AddCellNeighbor`, `ClearRegion` and
`EdgeListClear` at any time), every stored edge has a line id smaller than
`LineListSize()` and vertex ids smaller than `VertexListSize()`, and every
region point id is smaller than `VertexListSize()`. -/
theorem no_forward_references_when_respected {P : Type} (cs : List (Call P)) :
    ∀ d d2 : VoronoiDiagram2D P, d.IsEmptyDiagram → RespectsAll d cs →
      runCalls d cs = .ok d2 → d2.NoForwardReferences := by
  suffices hgen : ∀ d d2 : VoronoiDiagram2D P, d.NoForwardReferences → RespectsAll d cs →
      runCalls d cs = .ok d2 → d2.NoForwardReferences from
    fun d d2 he => hgen d d2 (VoronoiDiagram2D.NoForwardReferences_of_empty d he)
  induction cs with
  | nil =>
    intro d d2 hinv _ hrun
    injection hrun with hrun
    rw [← hrun]
    exact hinv
  | cons c cs ih =>
    intro d d2 hinv hres hrun
    obtain ⟨hc, hrest⟩ := hres
    unfold runCalls at hrun
    cases h1 : c.run d with
    | error e => rw [h1] at hrun; cases hrun
    | ok d1 =>
      rw [h1] at hrun hrest
      exact ih d1 d2 (VoronoiDiagram2D.NoForwardReferences_step c d d1 hinv hc h1) hrest hrun

theorem seededDiagram_empty : seededDiagram.IsEmptyDiagram := by
  refine ⟨rfl, rfl, ?_, ?_⟩
  · intro c hc
    have hc1 : some (⟨[]⟩ : PointsContainer (Int × Int)) = some c := hc
    injection hc1 with hc1
    rw [← hc1]
  · intro r hr
    have hr1 : r ∈ [(⟨[], []⟩ : PolygonCell), ⟨[], []⟩, ⟨[], []⟩, ⟨[], []⟩] := hr
    simp only [List.mem_cons, List.mem_singleton, List.not_mem_nil, or_false, or_self] at hr1
    rw [hr1]

theorem blankDiagram_empty : blankDiagram.IsEmptyDiagram := by
  refine ⟨rfl, rfl, ?_, ?_⟩
  · intro c hc
    cases hc
  · intro r hr
    cases hr

/-- Witness of `no_forward_references_when_respected`: a build fragment on
four seeds that adds an edge and a region point after the vertices and the
line they refer to. -/
theorem no_forward_references_when_respected_witness :
    seededDiagram.IsEmptyDiagram ∧ RespectsAll seededDiagram backwardCalls ∧
    ∃ d2, runCalls seededDiagram backwardCalls = .ok d2 ∧
      d2.m_EdgeList = [edgeA] ∧ d2.NoForwardReferences := by
  have hres : RespectsAll seededDiagram backwardCalls :=
    ⟨⟨rfl, fun r hr => seededDiagram_empty.2.2.2 r hr⟩, trivial, trivial, trivial,
      ⟨by decide, ⟨2, rfl, by decide⟩, ⟨2, rfl, by decide⟩⟩,
      ⟨2, rfl, by decide⟩, trivial, trivial⟩
  exact ⟨seededDiagram_empty, hres, _, rfl, rfl,
    no_forward_references_when_respected backwardCalls seededDiagram _
      seededDiagram_empty hres rfl⟩

/-- C10, counterexample to the claim as stated: from the empty diagram, one
`AddEdge` call with line id 0 stores an edge whose line id is not smaller
than `LineListSize() = 0`; and a build that adds the edge after its vertices
and its line, then calls `LineListClear()`, ends with the same forward
reference. -/
theorem forward_reference_counterexample :
    blankDiagram.IsEmptyDiagram ∧
    (∃ d2, runCalls blankDiagram [Call.AddEdge edgeA] = .ok d2 ∧
      d2.LineListSize = 0 ∧ edgeA ∈ d2.m_EdgeList ∧ ¬ d2.NoForwardReferences) ∧
    ∃ d2, runCalls blankDiagram clearingCalls = .ok d2 ∧
      d2.LineListSize = 0 ∧ edgeA ∈ d2.m_EdgeList ∧ ¬ d2.NoForwardReferences := by
  refine ⟨blankDiagram_empty, ⟨_, rfl, rfl, List.mem_singleton.mpr rfl, ?_⟩,
    ⟨_, rfl, rfl, List.mem_singleton.mpr rfl, ?_⟩⟩
  · intro h
    have h1 := (h.1 edgeA (List.mem_singleton.mpr rfl)).1
    revert h1
    decide
  · intro h
    have h1 := (h.1 edgeA (List.mem_singleton.mpr rfl)).1
    revert h1
    decide

/-! ## Seed pairs of edges -/

theorem vectorAt_append_of_lt {α : Type} (v w : List α) (id : Int)
    (h : id < (v.length : Int)) : vectorAt (v ++ w) id = vectorAt v id := by
  by_cases h0 : 0 ≤ id
  · obtain ⟨k, rfl⟩ := Int.eq_ofNat_of_zero_le h0
    have hk : k < v.length := by exact_mod_cast h
    have hk1 : k < (v ++ w).length := by
      rw [List.length_append]
      omega
    rw [vectorAt_ofNat v k hk, vectorAt_ofNat (v ++ w) k hk1]
    simp [List.getElem_append_left hk]
  · rw [vectorAt_of_neg v id (by omega), vectorAt_of_neg (v ++ w) id (by omega)]

/-- The invariant behind valid seed pairs: every stored line has a valid,
distinct seed pair, and every stored edge names a stored line. -/
theorem EdgeSeedsValid_of_lines {P : Type} (d : VoronoiDiagram2D P)
    (hl : ∀ x ∈ d.m_LineList, d.ValidSeedPair x)
    (he : ∀ e ∈ d.m_EdgeList, 0 ≤ e.m_LineID ∧ e.m_LineID < d.LineListSize) :
    d.EdgeSeedsValid := by
  intro e hmem
  obtain ⟨h0, h1⟩ := he e hmem
  obtain ⟨x, hx⟩ := (vectorAt_ok_iff d.m_LineList e.m_LineID).mpr ⟨h0, h1⟩
  exact ⟨x, hx, hl x (VoronoiDiagram2D.vectorAt_mem d.m_LineList e.m_LineID x hx)⟩

theorem KeepsSeedPairs_step {P : Type} (c : Call P) (d : VoronoiDiagram2D P)
    (hl : ∀ x ∈ d.m_LineList, d.ValidSeedPair x)
    (he : ∀ e ∈ d.m_EdgeList, 0 ≤ e.m_LineID ∧ e.m_LineID < d.LineListSize)
    (hc : c.KeepsSeedPairs d) :
    ∃ d1, c.run d = .ok d1 ∧ (∀ x ∈ d1.m_LineList, d1.ValidSeedPair x) ∧
      ∀ e ∈ d1.m_EdgeList, 0 ≤ e.m_LineID ∧ e.m_LineID < d1.LineListSize := by
  cases c with
  | AddLine x =>
    refine ⟨d.AddLine x, rfl, ?_, ?_⟩
    · intro y hy
      have hy1 : y ∈ d.m_LineList ++ [x] := hy
      rw [List.mem_append, List.mem_singleton] at hy1
      rcases hy1 with hy1 | rfl
      · exact hl y hy1
      · exact hc
    · intro e hmem
      obtain ⟨h0, h1⟩ := he e hmem
      refine ⟨h0, ?_⟩
      have h1a : e.m_LineID < (d.m_LineList.length : Int) := h1
      simp only [VoronoiDiagram2D.LineListSize, VoronoiDiagram2D.AddLine,
        List.length_append, List.length_singleton, Nat.cast_add, Nat.cast_one]
      omega
  | AddEdge x =>
    refine ⟨d.AddEdge x, rfl, hl, ?_⟩
    intro e hmem
    have hmem1 : e ∈ d.m_EdgeList ++ [x] := hmem
    rw [List.mem_append, List.mem_singleton] at hmem1
    rcases hmem1 with hm | rfl
    · exact he e hm
    · exact hc
  | AddVert x => exact absurd hc id
  | AddCellNeighbor x => exact absurd hc id
  | VoronoiRegionAddPointId i x => exact absurd hc id
  | ClearRegion i => exact absurd hc id
  | LineListClear => exact absurd hc id
  | EdgeListClear => exact absurd hc id
  | VertexListClear => exact absurd hc id

/-- C11, as the code has it: `AddLine` and `AddEdge` store what they are
given.  From empty line and edge lists, every sequence of `AddLine` calls
whose seed pair is valid and distinct and of `AddEdge` calls whose line id is
that of a line already stored ends in a state where the seed pair of the line
of every edge lies in `[0, NumberOfSeeds)` and is distinct. -/
theorem edge_seed_pairs_valid_when_kept {P : Type} (cs : List (Call P)) :
    ∀ d : VoronoiDiagram2D P, d.m_LineList = [] → d.m_EdgeList = [] →
      KeepsSeedPairsAll d cs → ∃ d2, runCalls d cs = .ok d2 ∧ d2.EdgeSeedsValid := by
  suffices hgen : ∀ d : VoronoiDiagram2D P, (∀ x ∈ d.m_LineList, d.ValidSeedPair x) →
      (∀ e ∈ d.m_EdgeList, 0 ≤ e.m_LineID ∧ e.m_LineID < d.LineListSize) →
      KeepsSeedPairsAll d cs → ∃ d2, runCalls d cs = .ok d2 ∧ d2.EdgeSeedsValid by
    intro d hl he hk
    refine hgen d ?_ ?_ hk
    · intro x hx
      rw [hl] at hx
      cases hx
    · intro e hmem
      rw [he] at hmem
      cases hmem
  induction cs with
  | nil =>
    intro d hl he _
    exact ⟨d, rfl, EdgeSeedsValid_of_lines d hl he⟩
  | cons c cs ih =>
    intro d hl he hk
    obtain ⟨hc, hrest⟩ := hk
    obtain ⟨d1, h1, hl1, he1⟩ := KeepsSeedPairs_step c d hl he hc
    rw [h1] at hrest
    obtain ⟨d2, h2, hv⟩ := ih d1 hl1 he1 hrest
    refine ⟨d2, ?_, hv⟩
    simp only [runCalls, h1]
    exact h2

/-- Witness of `edge_seed_pairs_valid_when_kept`: two lines between seeds of
a four-seed diagram, then two edges on the first line. -/
theorem edge_seed_pairs_valid_when_kept_witness :
    seededDiagram.m_LineList = [] ∧ seededDiagram.m_EdgeList = [] ∧
    KeepsSeedPairsAll seededDiagram seedPairCalls ∧
    ∃ d2, runCalls seededDiagram seedPairCalls = .ok d2 ∧ d2.EdgeSeedsValid := by
  have hk : KeepsSeedPairsAll seededDiagram seedPairCalls :=
    ⟨⟨⟨by decide, by decide⟩, ⟨by decide, by decide⟩, by decide⟩,
      ⟨⟨by decide, by decide⟩, ⟨by decide, by decide⟩, by decide⟩,
      ⟨by decide, by decide⟩, ⟨by decide, by decide⟩, trivial⟩
  exact ⟨rfl, rfl, hk, edge_seed_pairs_valid_when_kept seedPairCalls seededDiagram rfl rfl hk⟩

/-- C11, counterexample to the claim as stated: on a four-seed diagram,
`AddLine((2, 2))` then `AddEdge` on that line stores an edge whose two seed
ids are the same seed; `AddLine((0, 9))` then `AddEdge` stores an edge whose
seed 9 is not in `[0, 4)`. -/
theorem edge_seed_pairs_counterexample :
    (∃ d2, runCalls seededDiagram selfPairCalls = .ok d2 ∧
      d2.GetLine edgeA.m_LineID = .ok (2, 2) ∧ edgeA ∈ d2.m_EdgeList ∧
      ¬ d2.EdgeSeedsValid) ∧
    ∃ d2, runCalls seededDiagram strayPairCalls = .ok d2 ∧
      d2.GetLine edgeA.m_LineID = .ok (0, 9) ∧ edgeA ∈ d2.m_EdgeList ∧
      d2.m_NumberOfSeeds = 4 ∧ ¬ d2.EdgeSeedsValid := by
  refine ⟨⟨_, rfl, rfl, List.mem_singleton.mpr rfl, ?_⟩,
    ⟨_, rfl, rfl, List.mem_singleton.mpr rfl, rfl, ?_⟩⟩
  · intro h
    obtain ⟨x, hx, hv⟩ := h edgeA (List.mem_singleton.mpr rfl)
    have hx1 : (Except.ok (2, 2) : Except Fault EdgeInfo) = Except.ok x := hx
    injection hx1 with hx1
    subst hx1
    exact hv.2.2 rfl
  · intro h
    obtain ⟨x, hx, hv⟩ := h edgeA (List.mem_singleton.mpr rfl)
    have hx1 : (Except.ok (0, 9) : Except Fault EdgeInfo) = Except.ok x := hx
    injection hx1 with hx1
    subst hx1
    have h9 : (9 : Int) < ((4 : Nat) : Int) := hv.2.1.2
    revert h9
    decide

/-! ## Edges on one line, stable ids, agreeing accessors -/

namespace VoronoiDiagram2D

variable {P : Type}

theorem GetEdgeLineID_eq (d : VoronoiDiagram2D P) (id : Int) (x : VoronoiEdge P)
    (h : vectorAt d.m_EdgeList id = .ok x) : d.GetEdgeLineID id = .ok x.m_LineID := by
  simp [GetEdgeLineID, h]

/-- C12: two edge records with the same line id are both stored, by calls
that cannot be rejected (`AddEdge` is defined on every state and record):
with `n` the size before, the size is then `n + 2`, `GetEdge(n)` and
`GetEdge(n + 1)` are the two records under distinct ids, and
`GetEdgeLineID` gives the shared line id at both. -/
theorem AddEdge_shared_line_id (d : VoronoiDiagram2D P) (e1 e2 : VoronoiEdge P)
    (h : e1.m_LineID = e2.m_LineID) :
    ((d.AddEdge e1).AddEdge e2).EdgeListSize = d.EdgeListSize + 2 ∧
    ((d.AddEdge e1).AddEdge e2).GetEdge d.EdgeListSize = .ok e1 ∧
    ((d.AddEdge e1).AddEdge e2).GetEdge (d.EdgeListSize + 1) = .ok e2 ∧
    d.EdgeListSize ≠ d.EdgeListSize + 1 ∧
    ((d.AddEdge e1).AddEdge e2).GetEdgeLineID d.EdgeListSize = .ok e1.m_LineID ∧
    ((d.AddEdge e1).AddEdge e2).GetEdgeLineID (d.EdgeListSize + 1) = .ok e1.m_LineID := by
  have hlist : ((d.AddEdge e1).AddEdge e2).m_EdgeList = (d.m_EdgeList ++ [e1]) ++ [e2] := rfl
  have hat1 : vectorAt ((d.m_EdgeList ++ [e1]) ++ [e2]) (d.m_EdgeList.length : Int) = .ok e1 := by
    rw [vectorAt_append_of_lt _ _ _ (by simp)]
    exact vectorAt_append_length d.m_EdgeList e1
  have hat2 : vectorAt ((d.m_EdgeList ++ [e1]) ++ [e2]) ((d.m_EdgeList.length : Int) + 1)
      = .ok e2 := by
    have := vectorAt_append_length (d.m_EdgeList ++ [e1]) e2
    simpa using this
  refine ⟨?_, ?_, ?_, ?_, ?_, ?_⟩
  · simp only [EdgeListSize, hlist, List.length_append, List.length_singleton,
      Nat.cast_add, Nat.cast_one]
    ring
  · exact hat1
  · exact hat2
  · intro hne
    omega
  · exact GetEdgeLineID_eq _ _ e1 (by rw [hlist]; exact hat1)
  · rw [h]
    exact GetEdgeLineID_eq _ _ e2 (by rw [hlist]; exact hat2)

/-- Witness of `AddEdge_shared_line_id`: the sample edges both lie on line 0. -/
theorem AddEdge_shared_line_id_witness :
    edgeA.m_LineID = edgeB.m_LineID ∧
    ((sampleDiagram.AddEdge edgeA).AddEdge edgeB).EdgeListSize = 3 ∧
    ((sampleDiagram.AddEdge edgeA).AddEdge edgeB).GetEdge 1 = .ok edgeA ∧
    ((sampleDiagram.AddEdge edgeA).AddEdge edgeB).GetEdge 2 = .ok edgeB ∧
    ((sampleDiagram.AddEdge edgeA).AddEdge edgeB).GetEdgeLineID 1 = .ok 0 ∧
    ((sampleDiagram.AddEdge edgeA).AddEdge edgeB).GetEdgeLineID 2 = .ok 0 := by
  obtain ⟨h1, h2, h3, _, h5, h6⟩ := AddEdge_shared_line_id sampleDiagram edgeA edgeB rfl
  exact ⟨rfl, h1, h2, h3, h5, h6⟩

theorem AddLines_m_LineList (d : VoronoiDiagram2D P) (xs : List EdgeInfo) :
    (d.AddLines xs).m_LineList = d.m_LineList ++ xs := by
  induction xs generalizing d with
  | nil => simp [AddLines]
  | cons x xs ih =>
    have hstep : d.AddLines (x :: xs) = (d.AddLine x).AddLines xs := rfl
    rw [hstep, ih]
    simp [AddLine]

theorem some_AddVerts (ps : List P) :
    ∀ (d : VoronoiDiagram2D P) (c : PointsContainer P), d.m_PointsContainer = some c →
      d.AddVerts ps = .ok { d with m_PointsContainer := some ⟨c.elements ++ ps⟩ } := by
  induction ps with
  | nil =>
    intro d c hc
    simp only [AddVerts, List.append_nil]
    rw [with_same_container d c hc]
  | cons p ps ih =>
    intro d c hc
    simp only [AddVerts, some_AddVert d c p hc]
    rw [ih _ ⟨c.elements ++ [p]⟩ rfl]
    simp

theorem ElementAt_append_of_lt (c : PointsContainer P) (w : List P) (id : Int)
    (h : id < (c.Size : Int)) :
    ((⟨c.elements ++ w⟩ : PointsContainer P).ElementAt id).1 = (c.ElementAt id).1 := by
  unfold PointsContainer.Size at h
  by_cases h0 : 0 ≤ id
  · obtain ⟨k, rfl⟩ := Int.eq_ofNat_of_zero_le h0
    have hk : k < c.elements.length := by exact_mod_cast h
    have hk1 : k < (c.elements ++ w).length := by
      rw [List.length_append]
      omega
    rw [ElementAt_ofNat c k hk, ElementAt_ofNat ⟨c.elements ++ w⟩ k hk1]
    simp [List.getElem_append_left hk]
  · rw [ElementAt_out c id (Or.inl (by omega)),
      ElementAt_out ⟨c.elements ++ w⟩ id (Or.inl (by omega))]

/-- C15: appending never overwrites or reorders.  For every id `j` below the
current size, `GetEdge(j)`, `GetEdgeEnd(j)` and `GetEdgeLineID(j)` give the
same result after any later `AddEdge` calls, `GetLine(j)` after any later
`AddLine` calls, and `GetVertex(j)` after any later `AddVert` calls (which
are defined when the vertex store has a size). -/
theorem ids_stable_under_append (d : VoronoiDiagram2D P) (xs : List (VoronoiEdge P))
    (ls : List EdgeInfo) (ps : List P) (n : Int) (hn : d.VertexListSize = .ok n) :
    (∀ j : Int, j < d.EdgeListSize →
      (d.AddEdges xs).GetEdge j = d.GetEdge j ∧
      (d.AddEdges xs).GetEdgeEnd j = d.GetEdgeEnd j ∧
      (d.AddEdges xs).GetEdgeLineID j = d.GetEdgeLineID j) ∧
    (∀ j : Int, j < d.LineListSize → (d.AddLines ls).GetLine j = d.GetLine j) ∧
    ∃ d1, d.AddVerts ps = .ok d1 ∧
      ∀ j : Int, j < n → (d1.GetVertex j).1 = (d.GetVertex j).1 := by
  refine ⟨?_, ?_, ?_⟩
  · intro j hj
    have hat : vectorAt (d.AddEdges xs).m_EdgeList j = vectorAt d.m_EdgeList j := by
      rw [AddEdges_m_EdgeList]
      exact vectorAt_append_of_lt _ _ _ hj
    refine ⟨hat, ?_, ?_⟩
    · simp only [GetEdgeEnd, hat]
    · simp only [GetEdgeLineID, hat]
  · intro j hj
    show vectorAt (d.AddLines ls).m_LineList j = vectorAt d.m_LineList j
    rw [AddLines_m_LineList]
    exact vectorAt_append_of_lt _ _ _ hj
  · obtain ⟨c, hc, rfl⟩ := VertexListSize_ok d n hn
    refine ⟨_, some_AddVerts ps d c hc, ?_⟩
    intro j hj
    simp only [GetVertex, hc]
    exact ElementAt_append_of_lt c ps j hj

/-- Witness of `ids_stable_under_append`: the sample diagram, with three
vertices, two lines and one edge, extended by one of each. -/
theorem ids_stable_under_append_witness :
    sampleDiagram.VertexListSize = .ok 3 ∧
    (sampleDiagram.AddEdges [edgeB]).GetEdge 0 = .ok edgeA ∧
    (sampleDiagram.AddLines [(1, 3)]).GetLine 1 = .ok (0, 2) ∧
    ∃ d1, sampleDiagram.AddVerts [(7, 7)] = .ok d1 ∧ (d1.GetVertex 2).1 = .ok (-5, 5) := by
  obtain ⟨he, hl, d1, h1, hv⟩ :=
    ids_stable_under_append sampleDiagram [edgeB] [(1, 3)] [(7, 7)] 3 rfl
  refine ⟨rfl, ?_, ?_, d1, h1, ?_⟩
  · rw [(he 0 (by decide)).1]
    rfl
  · rw [hl 1 (by decide)]
    rfl
  · rw [hv 2 (by decide)]
    rfl

/-- C19: for every id from 0 up to `EdgeListSize()`, `GetEdge(id)` returns a
record `e`, `GetEdgeEnd(id)` returns `(e.m_LeftID, e.m_RightID)` and
`GetEdgeLineID(id)` returns `e.m_LineID`; and each of `GetLine`, `GetEdge`,
`GetEdgeEnd`, `GetEdgeLineID`, `LineListSize`, `EdgeListSize`, taken as a
call, returns the value of the accessor and leaves the diagram as it was. -/
theorem edge_accessors_agree (d : VoronoiDiagram2D P) (id : Int)
    (h0 : 0 ≤ id) (h1 : id < d.EdgeListSize) :
    ∃ e, d.GetEdge id = .ok e ∧
      d.GetEdgeEnd id = .ok (e.m_LeftID, e.m_RightID) ∧
      d.GetEdgeLineID id = .ok e.m_LineID ∧
      d.GetEdgeCall id = .ok (e, d) ∧
      d.GetEdgeEndCall id = .ok ((e.m_LeftID, e.m_RightID), d) ∧
      d.GetEdgeLineIDCall id = .ok (e.m_LineID, d) ∧
      d.LineListSizeCall = (d.LineListSize, d) ∧
      d.EdgeListSizeCall = (d.EdgeListSize, d) ∧
      ∀ (j : Int) (x : EdgeInfo) (d1 : VoronoiDiagram2D P),
        d.GetLineCall j = .ok (x, d1) → d.GetLine j = .ok x ∧ d1 = d := by
  obtain ⟨e, he⟩ := (vectorAt_ok_iff d.m_EdgeList id).mpr ⟨h0, h1⟩
  refine ⟨e, he, GetEdgeEnd_eq d id e he, GetEdgeLineID_eq d id e he, ?_, ?_, ?_,
    rfl, rfl, ?_⟩
  · simp [GetEdgeCall, he]
  · simp [GetEdgeEndCall, he]
  · simp [GetEdgeLineIDCall, he]
  · intro j x d1 hcall
    unfold GetLineCall at hcall
    cases hv : vectorAt d.m_LineList j with
    | error e0 => rw [hv] at hcall; cases hcall
    | ok y =>
      rw [hv] at hcall
      injection hcall with hcall
      injection hcall with hx hd
      exact ⟨by rw [GetLine, hv, hx], hd.symm⟩

/-- Witness of `edge_accessors_agree`: the edge 0 of the sample diagram. -/
theorem edge_accessors_agree_witness :
    (0 : Int) ≤ 0 ∧ (0 : Int) < sampleDiagram.EdgeListSize ∧
    sampleDiagram.GetEdge 0 = .ok edgeA ∧
    sampleDiagram.GetEdgeEnd 0 = .ok (0, 1) ∧
    sampleDiagram.GetEdgeLineID 0 = .ok 0 ∧
    sampleDiagram.GetEdgeEndCall 0 = .ok ((0, 1), sampleDiagram) := by
  obtain ⟨e, he, h2, h3, _, h5, _⟩ :=
    edge_accessors_agree sampleDiagram 0 (by decide) (by decide)
  have hA : (Except.ok edgeA : Except Fault (VoronoiEdge (Int × Int))) = Except.ok e := he
  injection hA with hA
  subst hA
  exact ⟨by decide, by decide, he, h2, h3, h5⟩

end VoronoiDiagram2D

/-! ## Region point lists -/

theorem vectorAt_set {α : Type} (v : List α) (i j : Int) (a : α)
    (h0 : 0 ≤ i) (h1 : i < (v.length : Int)) :
    vectorAt (v.set i.toNat a) j = if j = i then .ok a else vectorAt v j := by
  obtain ⟨k, rfl⟩ := Int.eq_ofNat_of_zero_le h0
  have hk : k < v.length := by exact_mod_cast h1
  by_cases hj0 : 0 ≤ j
  · obtain ⟨m, rfl⟩ := Int.eq_ofNat_of_zero_le hj0
    by_cases hmk : m = k
    · subst hmk
      simp [vectorAt, List.getElem?_set, hk]
    · have hne : ¬ ((m : Int) = (k : Int)) := fun e => hmk (by exact_mod_cast e)
      have hkm : ¬ k = m := fun e => hmk e.symm
      simp [vectorAt, List.getElem?_set, hne, hkm]
  · have hne : ¬ (j = (k : Int)) := by omega
    rw [if_neg hne, vectorAt_of_neg v j (by omega), vectorAt_of_neg _ j (by omega)]

theorem updateCellAt_eq (v : List PolygonCell) (i : Int) (f : PolygonCell → PolygonCell)
    (c : PolygonCell) (hc : vectorAt v i = .ok c) :
    updateCellAt v i f = .ok (v.set i.toNat (f c)) := by
  simp [updateCellAt, hc]

namespace VoronoiDiagram2D

variable {P : Type}

theorem RegionPointIds_ok (d : VoronoiDiagram2D P) (i : Int) (pts : List Int)
    (h : d.RegionPointIds i = .ok pts) :
    ∃ c, vectorAt d.m_VoronoiRegions i = .ok c ∧ c.m_PointIds = pts := by
  unfold RegionPointIds at h
  cases hv : vectorAt d.m_VoronoiRegions i with
  | error e => rw [hv] at h; cases h
  | ok c =>
    rw [hv] at h
    injection h with h
    exact ⟨c, rfl, h⟩

/-- The effect of one call `m_VoronoiRegions[i]->f()` on the point lists:
region `i` gets the point list of `f` applied to its cell, every other region
keeps its own. -/
theorem RegionPointIds_update (d : VoronoiDiagram2D P) (i : Int)
    (f : PolygonCell → PolygonCell) (c : PolygonCell)
    (hc : vectorAt d.m_VoronoiRegions i = .ok c) (j : Int) :
    RegionPointIds { d with m_VoronoiRegions := d.m_VoronoiRegions.set i.toNat (f c) } j =
      if j = i then .ok (f c).m_PointIds else d.RegionPointIds j := by
  obtain ⟨h0, h1⟩ := (vectorAt_ok_iff d.m_VoronoiRegions i).mp ⟨c, hc⟩
  unfold RegionPointIds
  simp only []
  rw [vectorAt_set d.m_VoronoiRegions i j (f c) h0 h1]
  by_cases hj : j = i
  · simp [hj]
  · simp [hj]

theorem VoronoiRegionAddPointIds_spec (i : Int) (vs : List Int) :
    ∀ (d : VoronoiDiagram2D P) (pts : List Int), d.RegionPointIds i = .ok pts →
      ∃ d2, d.VoronoiRegionAddPointIds i vs = .ok d2 ∧
        d2.RegionPointIds i = .ok (pts ++ vs) ∧
        ∀ j : Int, j ≠ i → d2.RegionPointIds j = d.RegionPointIds j := by
  induction vs with
  | nil =>
    intro d pts h
    exact ⟨d, rfl, by simpa using h, fun _ _ => rfl⟩
  | cons x vs ih =>
    intro d pts h
    obtain ⟨c, hc, hpts⟩ := RegionPointIds_ok d i pts h
    have hstep : d.VoronoiRegionAddPointId i x =
        .ok { d with m_VoronoiRegions := d.m_VoronoiRegions.set i.toNat (c.AddPointId x) } := by
      simp [VoronoiRegionAddPointId, updateCellAt_eq _ i _ c hc]
    have hupd := RegionPointIds_update d i (fun c => c.AddPointId x) c hc
    have hi : RegionPointIds
        { d with m_VoronoiRegions := d.m_VoronoiRegions.set i.toNat (c.AddPointId x) } i
        = .ok (pts ++ [x]) := by
      rw [hupd i, if_pos rfl]
      simp [PolygonCell.AddPointId, hpts]
    obtain ⟨d2, h2, hi2, hother⟩ := ih _ (pts ++ [x]) hi
    refine ⟨d2, ?_, ?_, ?_⟩
    · simp only [VoronoiRegionAddPointIds, hstep]
      exact h2
    · rw [hi2, List.append_assoc]
      rfl
    · intro j hj
      rw [hother j hj, hupd j, if_neg hj]

/-- C13: for a region index `i` in range and any vertex ids `vs`,
`ClearRegion(i)` is defined and empties the pending point list of region `i`;
the calls `VoronoiRegionAddPointId(i, v)` for `v` in `vs`, in order, are
defined and leave that list equal to `vs`; and the point list of every other
region is what it was before. -/
theorem region_point_list_in_order (d : VoronoiDiagram2D P) (i : Int) (vs : List Int)
    (h0 : 0 ≤ i) (h1 : i < (d.m_VoronoiRegions.length : Int)) :
    ∃ d1 d2, d.ClearRegion i = .ok d1 ∧ d1.RegionPointIds i = .ok [] ∧
      d1.VoronoiRegionAddPointIds i vs = .ok d2 ∧ d2.RegionPointIds i = .ok vs ∧
      ∀ j : Int, j ≠ i → d2.RegionPointIds j = d.RegionPointIds j := by
  obtain ⟨c, hc⟩ := (vectorAt_ok_iff d.m_VoronoiRegions i).mpr ⟨h0, h1⟩
  have hstep : d.ClearRegion i =
      .ok { d with m_VoronoiRegions := d.m_VoronoiRegions.set i.toNat c.ClearPoints } := by
    simp [ClearRegion, updateCellAt_eq _ i _ c hc]
  have hupd := RegionPointIds_update d i PolygonCell.ClearPoints c hc
  have hi : RegionPointIds
      { d with m_VoronoiRegions := d.m_VoronoiRegions.set i.toNat c.ClearPoints } i
      = .ok [] := by
    rw [hupd i, if_pos rfl]
    rfl
  obtain ⟨d2, h2, hi2, hother⟩ := VoronoiRegionAddPointIds_spec i vs _ [] hi
  refine ⟨_, d2, hstep, hi, h2, by simpa using hi2, ?_⟩
  intro j hj
  rw [hother j hj, hupd j, if_neg hj]

/-- Witness of `region_point_list_in_order`: region 0 of the sample diagram,
which holds two pending points, cleared and refilled with three. -/
theorem region_point_list_in_order_witness :
    (0 : Int) ≤ 0 ∧ (0 : Int) < (sampleDiagram.m_VoronoiRegions.length : Int) ∧
    sampleDiagram.RegionPointIds 0 = .ok [0, 1] ∧
    ∃ d1 d2, sampleDiagram.ClearRegion 0 = .ok d1 ∧ d1.RegionPointIds 0 = .ok [] ∧
      d1.VoronoiRegionAddPointIds 0 [2, 0, 1] = .ok d2 ∧
      d2.RegionPointIds 0 = .ok [2, 0, 1] ∧
      ∀ j : Int, j ≠ 0 → d2.RegionPointIds j = sampleDiagram.RegionPointIds j :=
  ⟨by decide, by decide, rfl,
    region_point_list_in_order sampleDiagram 0 [2, 0, 1] (by decide) (by decide)⟩

end VoronoiDiagram2D

/-! ## Frame conditions and order of the neighbour lists -/

namespace VoronoiDiagram2D

variable {P : Type}

theorem NeighborIds_out (d : VoronoiDiagram2D P) (j : Int)
    (h : j < 0 ∨ (d.m_CellNeighborsID.length : Int) ≤ j) :
    d.NeighborIds j = .error Fault.undefined := by
  rcases h with h | h
  · exact vectorAt_of_neg _ j h
  · exact vectorAt_of_le _ j h

/-- C17: each mutator changes only its own component.  `AddLine` and
`LineListClear` keep the edge list, the vertex store, the neighbour lists and
the regions; `AddEdge` and `EdgeListClear` keep the line list, the vertex
store, the neighbour lists and the regions; `AddVert` (defined when the
vertex store has a size) and `VertexListClear` keep the line list, the edge
list, the neighbour lists and the regions; `AddCellNeighbor((a, b))` (defined
for seed ids in range) keeps the line list, the edge list, the vertex store,
the regions, and the neighbour list of every seed other than `a` and `b`. -/
theorem mutators_change_own_component (d : VoronoiDiagram2D P) (l : EdgeInfo)
    (e : VoronoiEdge P) (p : P) (a b n : Int) (hn : d.VertexListSize = .ok n)
    (ha : d.ValidSeed a) (hb : d.ValidSeed b) :
    ((d.AddLine l).m_EdgeList = d.m_EdgeList ∧
      (d.AddLine l).m_PointsContainer = d.m_PointsContainer ∧
      (d.AddLine l).m_CellNeighborsID = d.m_CellNeighborsID ∧
      (d.AddLine l).m_VoronoiRegions = d.m_VoronoiRegions) ∧
    (d.LineListClear.m_EdgeList = d.m_EdgeList ∧
      d.LineListClear.m_PointsContainer = d.m_PointsContainer ∧
      d.LineListClear.m_CellNeighborsID = d.m_CellNeighborsID ∧
      d.LineListClear.m_VoronoiRegions = d.m_VoronoiRegions) ∧
    ((d.AddEdge e).m_LineList = d.m_LineList ∧
      (d.AddEdge e).m_PointsContainer = d.m_PointsContainer ∧
      (d.AddEdge e).m_CellNeighborsID = d.m_CellNeighborsID ∧
      (d.AddEdge e).m_VoronoiRegions = d.m_VoronoiRegions) ∧
    (d.EdgeListClear.m_LineList = d.m_LineList ∧
      d.EdgeListClear.m_PointsContainer = d.m_PointsContainer ∧
      d.EdgeListClear.m_CellNeighborsID = d.m_CellNeighborsID ∧
      d.EdgeListClear.m_VoronoiRegions = d.m_VoronoiRegions) ∧
    (∃ d1, d.AddVert p = .ok d1 ∧
      d1.m_LineList = d.m_LineList ∧ d1.m_EdgeList = d.m_EdgeList ∧
      d1.m_CellNeighborsID = d.m_CellNeighborsID ∧
      d1.m_VoronoiRegions = d.m_VoronoiRegions) ∧
    (d.VertexListClear.m_LineList = d.m_LineList ∧
      d.VertexListClear.m_EdgeList = d.m_EdgeList ∧
      d.VertexListClear.m_CellNeighborsID = d.m_CellNeighborsID ∧
      d.VertexListClear.m_VoronoiRegions = d.m_VoronoiRegions) ∧
    ∃ d1, d.AddCellNeighbor (a, b) = .ok d1 ∧
      d1.m_LineList = d.m_LineList ∧ d1.m_EdgeList = d.m_EdgeList ∧
      d1.m_PointsContainer = d.m_PointsContainer ∧
      d1.m_VoronoiRegions = d.m_VoronoiRegions ∧
      ∀ j : Int, j ≠ a → j ≠ b → d1.NeighborIds j = d.NeighborIds j := by
  refine ⟨⟨rfl, rfl, rfl, rfl⟩, ⟨rfl, rfl, rfl, rfl⟩, ⟨rfl, rfl, rfl, rfl⟩,
    ⟨rfl, rfl, rfl, rfl⟩, ?_, ⟨rfl, rfl, rfl, rfl⟩, ?_⟩
  · obtain ⟨c, hc, _⟩ := VertexListSize_ok d n hn
    exact ⟨_, some_AddVert d c p hc, rfl, rfl, rfl, rfl⟩
  · obtain ⟨a0, rfl, hal⟩ := ValidSeed_ofNat d a ha
    obtain ⟨b0, rfl, hbl⟩ := ValidSeed_ofNat d b hb
    obtain ⟨d1, h1, hlen, hget⟩ := AddCellNeighbor_ofNat d a0 b0 hal hbl
    obtain ⟨fe, fl, fr, fp⟩ := AddCellNeighbor_fields d d1 _ h1
    refine ⟨d1, h1, fl, fe, fp, fr, ?_⟩
    intro j hja hjb
    by_cases hj : 0 ≤ j ∧ j < (d.m_CellNeighborsID.length : Int)
    · obtain ⟨k, rfl⟩ := Int.eq_ofNat_of_zero_le hj.1
      have hk : k < d.m_CellNeighborsID.length := by exact_mod_cast hj.2
      have hka : ¬ k = a0 := fun h => hja (by rw [h])
      have hkb : ¬ k = b0 := fun h => hjb (by rw [h])
      rw [NeighborIds_ofNat d k hk, NeighborIds_ofNat d1 k (by rw [hlen]; exact hk), hget k]
      simp [hka, hkb]
    · have hout : j < 0 ∨ (d.m_CellNeighborsID.length : Int) ≤ j := by omega
      rw [NeighborIds_out d j hout, NeighborIds_out d1 j (by rw [hlen]; exact hout)]

/-- Witness of `mutators_change_own_component`: the sample diagram, with
three vertices and four seeds, and the seed pair (2, 3). -/
theorem mutators_change_own_component_witness :
    sampleDiagram.VertexListSize = .ok 3 ∧ sampleDiagram.ValidSeed 2 ∧
    sampleDiagram.ValidSeed 3 ∧
    (∃ d1, sampleDiagram.AddVert (7, 7) = .ok d1 ∧
      d1.m_LineList = sampleDiagram.m_LineList ∧ d1.m_EdgeList = sampleDiagram.m_EdgeList ∧
      d1.m_CellNeighborsID = sampleDiagram.m_CellNeighborsID ∧
      d1.m_VoronoiRegions = sampleDiagram.m_VoronoiRegions) ∧
    ∃ d1, sampleDiagram.AddCellNeighbor (2, 3) = .ok d1 ∧
      d1.m_LineList = sampleDiagram.m_LineList ∧ d1.m_EdgeList = sampleDiagram.m_EdgeList ∧
      d1.m_PointsContainer = sampleDiagram.m_PointsContainer ∧
      d1.m_VoronoiRegions = sampleDiagram.m_VoronoiRegions ∧
      ∀ j : Int, j ≠ 2 → j ≠ 3 → d1.NeighborIds j = sampleDiagram.NeighborIds j := by
  obtain ⟨_, _, _, _, hv, _, hc⟩ :=
    mutators_change_own_component sampleDiagram (1, 3) edgeB (7, 7) 2 3 3 rfl
      ⟨by decide, by decide⟩ ⟨by decide, by decide⟩
  exact ⟨rfl, ⟨by decide, by decide⟩, ⟨by decide, by decide⟩, hv, hc⟩

/-- C18: `AddCellNeighbor` appends at the end and keeps the order.  For seed
ids `a`, `b` with neighbour lists `la`, `lb`, the call is defined; if `a ≠ b`
the list of `a` becomes `la` followed by `b` and the list of `b` becomes `lb`
followed by `a`; if `a = b` the list of `a` becomes `la` followed by `a`
twice. -/
theorem AddCellNeighbor_appends_in_order (d : VoronoiDiagram2D P) (a b : Int)
    (la lb : List Int) (ha : d.NeighborIds a = .ok la) (hb : d.NeighborIds b = .ok lb) :
    ∃ d1, d.AddCellNeighbor (a, b) = .ok d1 ∧
      (a ≠ b → d1.NeighborIds a = .ok (la ++ [b]) ∧ d1.NeighborIds b = .ok (lb ++ [a])) ∧
      (a = b → d1.NeighborIds a = .ok (la ++ [a, a])) := by
  have hva : d.ValidSeed a := (vectorAt_ok_iff d.m_CellNeighborsID a).mp ⟨la, ha⟩
  have hvb : d.ValidSeed b := (vectorAt_ok_iff d.m_CellNeighborsID b).mp ⟨lb, hb⟩
  obtain ⟨a0, rfl, hal⟩ := ValidSeed_ofNat d a hva
  obtain ⟨b0, rfl, hbl⟩ := ValidSeed_ofNat d b hvb
  obtain ⟨d1, h1, hlen, hget⟩ := AddCellNeighbor_ofNat d a0 b0 hal hbl
  rw [NeighborIds_ofNat d a0 hal] at ha
  rw [NeighborIds_ofNat d b0 hbl] at hb
  injection ha with ha
  injection hb with hb
  have hal1 : a0 < d1.m_CellNeighborsID.length := by rw [hlen]; exact hal
  have hbl1 : b0 < d1.m_CellNeighborsID.length := by rw [hlen]; exact hbl
  refine ⟨d1, h1, ?_, ?_⟩
  · intro hne
    have hab : ¬ a0 = b0 := fun h => hne (by rw [h])
    have hba : ¬ b0 = a0 := fun h => hab h.symm
    refine ⟨?_, ?_⟩
    · rw [NeighborIds_ofNat d1 a0 hal1, hget a0, ha]
      simp [hab]
    · rw [NeighborIds_ofNat d1 b0 hbl1, hget b0, hb]
      simp [hba]
  · intro heq
    have hab : a0 = b0 := by exact_mod_cast heq
    subst hab
    rw [NeighborIds_ofNat d1 a0 hal1, hget a0, ha]
    simp

/-- Witness of `AddCellNeighbor_appends_in_order`: on the sample diagram seed
0 lists `[1]` and seed 2 lists nothing; the pair (0, 2) extends both. -/
theorem AddCellNeighbor_appends_in_order_witness :
    sampleDiagram.NeighborIds 0 = .ok [1] ∧ sampleDiagram.NeighborIds 2 = .ok [] ∧
    ∃ d1, sampleDiagram.AddCellNeighbor (0, 2) = .ok d1 ∧
      d1.NeighborIds 0 = .ok [1, 2] ∧ d1.NeighborIds 2 = .ok [0] := by
  obtain ⟨d1, h1, hne, _⟩ :=
    AddCellNeighbor_appends_in_order sampleDiagram 0 2 [1] [] rfl rfl
  exact ⟨rfl, rfl, d1, h1, hne (by decide)⟩

end VoronoiDiagram2D

/-! ## Replay after a reset -/

theorem vectorAt_ok_getElem? {α : Type} (v : List α) (k : Nat) (a : α) :
    vectorAt v (k : Int) = .ok a ↔ v[k]? = some a := by
  unfold vectorAt
  rw [if_pos (Int.ofNat_nonneg k), Int.toNat_ofNat]
  cases v[k]? with
  | none => simp
  | some b => simp

/-- A cell mutator whose resulting point list depends only on the point list
acts alike on two region vectors with the same point lists. -/
theorem updateCellAt_pointIds (v w : List PolygonCell) (i : Int)
    (f : PolygonCell → PolygonCell)
    (hf : ∀ c c1 : PolygonCell, c.m_PointIds = c1.m_PointIds →
      (f c).m_PointIds = (f c1).m_PointIds)
    (hR : v.map (fun c => c.m_PointIds) = w.map (fun c => c.m_PointIds))
    (v1 : List PolygonCell) (h : updateCellAt v i f = .ok v1) :
    ∃ w1, updateCellAt w i f = .ok w1 ∧
      v1.map (fun c => c.m_PointIds) = w1.map (fun c => c.m_PointIds) := by
  unfold updateCellAt at h
  cases hv : vectorAt v i with
  | error e => rw [hv] at h; cases h
  | ok c =>
    rw [hv] at h
    injection h with h
    obtain ⟨h0, h1⟩ := (vectorAt_ok_iff v i).mp ⟨c, hv⟩
    have hlen : w.length = v.length := by
      have := congrArg List.length hR
      simpa using this.symm
    obtain ⟨c1, hw⟩ := (vectorAt_ok_iff w i).mpr ⟨h0, by rw [hlen]; exact h1⟩
    obtain ⟨k, rfl⟩ := Int.eq_ofNat_of_zero_le h0
    have hvk := (vectorAt_ok_getElem? v k c).mp hv
    have hwk := (vectorAt_ok_getElem? w k c1).mp hw
    have hpts : c.m_PointIds = c1.m_PointIds := by
      have hk : (v.map (fun c => c.m_PointIds))[k]? = (w.map (fun c => c.m_PointIds))[k]? := by
        rw [hR]
      rw [List.getElem?_map, List.getElem?_map, hvk, hwk] at hk
      exact Option.some.inj hk
    refine ⟨w.set k (f c1), by simp [updateCellAt, hw], ?_⟩
    rw [← h, Int.toNat_ofNat, List.map_set, List.map_set, hR, hf c c1 hpts]

theorem region_op_inv {P : Type} (d d1 : VoronoiDiagram2D P) (i : Int)
    (f : PolygonCell → PolygonCell)
    (h : (match updateCellAt d.m_VoronoiRegions i f with
      | .ok v => (.ok { d with m_VoronoiRegions := v } : Except Fault (VoronoiDiagram2D P))
      | .error e => .error e) = .ok d1) :
    ∃ v, updateCellAt d.m_VoronoiRegions i f = .ok v ∧ d1 = { d with m_VoronoiRegions := v } := by
  cases hu : updateCellAt d.m_VoronoiRegions i f with
  | error e => rw [hu] at h; cases h
  | ok v =>
    rw [hu] at h
    injection h with h
    exact ⟨v, rfl, h.symm⟩

theorem updateCellAt_length (v v1 : List PolygonCell) (i : Int)
    (f : PolygonCell → PolygonCell) (h : updateCellAt v i f = .ok v1) :
    v1.length = v.length := by
  unfold updateCellAt at h
  cases hv : vectorAt v i with
  | error e => rw [hv] at h; cases h
  | ok c =>
    rw [hv] at h
    injection h with h
    rw [← h, List.length_set]

theorem updateCellAt_defined (v w v1 : List PolygonCell) (i : Int)
    (f : PolygonCell → PolygonCell) (hlen : w.length = v.length)
    (h : updateCellAt v i f = .ok v1) : ∃ w1, updateCellAt w i f = .ok w1 := by
  unfold updateCellAt at h
  cases hv : vectorAt v i with
  | error e => rw [hv] at h; cases h
  | ok c =>
    obtain ⟨h0, h1⟩ := (vectorAt_ok_iff v i).mp ⟨c, hv⟩
    obtain ⟨c1, hw⟩ := (vectorAt_ok_iff w i).mpr ⟨h0, by rw [hlen]; exact h1⟩
    exact ⟨_, updateCellAt_eq w i f c1 hw⟩

theorem Contents_eq_iff {P : Type} (a b : VoronoiDiagram2D P) :
    a.Contents = b.Contents ↔
      (a.m_PointsContainer.map (fun c => c.elements) =
          b.m_PointsContainer.map (fun c => c.elements) ∧
        a.m_LineList = b.m_LineList ∧ a.m_EdgeList = b.m_EdgeList ∧
        a.m_VoronoiRegions.map (fun c => c.m_PointIds) =
          b.m_VoronoiRegions.map (fun c => c.m_PointIds)) := by
  simp [VoronoiDiagram2D.Contents, Prod.ext_iff]

/-- One mutation acts alike on two diagrams with the same contents. -/
theorem Mutation_run_contents {P : Type} (m : Mutation P) (a b a1 : VoronoiDiagram2D P)
    (hab : a.Contents = b.Contents) (h : m.run a = .ok a1) :
    ∃ b1, m.run b = .ok b1 ∧ a1.Contents = b1.Contents := by
  obtain ⟨hP, hL, hE, hR⟩ := (Contents_eq_iff a b).mp hab
  cases m with
  | AddVert x =>
    have h1 : a.AddVert x = .ok a1 := h
    cases hca : a.m_PointsContainer with
    | none =>
      simp [VoronoiDiagram2D.AddVert, hca] at h1
    | some ca =>
      rw [VoronoiDiagram2D.some_AddVert a ca x hca] at h1
      injection h1 with h1
      cases hcb : b.m_PointsContainer with
      | none =>
        rw [hca, hcb] at hP
        cases hP
      | some cb =>
        rw [hca, hcb] at hP
        have hel : ca.elements = cb.elements := Option.some.inj hP
        refine ⟨_, VoronoiDiagram2D.some_AddVert b cb x hcb, ?_⟩
        rw [← h1, Contents_eq_iff]
        exact ⟨by simp [hel], hL, hE, hR⟩
  | AddLine x =>
    have h1 : Except.ok (a.AddLine x) = Except.ok a1 := h
    injection h1 with h1
    refine ⟨b.AddLine x, rfl, ?_⟩
    rw [← h1, Contents_eq_iff]
    exact ⟨hP, by simp [VoronoiDiagram2D.AddLine, hL], hE, hR⟩
  | AddEdge x =>
    have h1 : Except.ok (a.AddEdge x) = Except.ok a1 := h
    injection h1 with h1
    refine ⟨b.AddEdge x, rfl, ?_⟩
    rw [← h1, Contents_eq_iff]
    exact ⟨hP, hL, by simp [VoronoiDiagram2D.AddEdge, hE], hR⟩
  | VoronoiRegionAddPointId i x =>
    obtain ⟨v, hv, ha1⟩ := region_op_inv a a1 i (fun c => c.AddPointId x) h
    obtain ⟨w1, hw, hmap⟩ := updateCellAt_pointIds _ b.m_VoronoiRegions i
      (fun c => c.AddPointId x)
      (fun c c1 hc => by simp [PolygonCell.AddPointId, hc]) hR v hv
    refine ⟨{ b with m_VoronoiRegions := w1 }, ?_, ?_⟩
    · show b.VoronoiRegionAddPointId i x = _
      simp [VoronoiDiagram2D.VoronoiRegionAddPointId, hw]
    · rw [ha1, Contents_eq_iff]
      exact ⟨hP, hL, hE, hmap⟩
  | BuildEdge i =>
    obtain ⟨v, hv, ha1⟩ := region_op_inv a a1 i PolygonCell.BuildEdges h
    obtain ⟨w1, hw, hmap⟩ := updateCellAt_pointIds _ b.m_VoronoiRegions i
      PolygonCell.BuildEdges (fun c c1 hc => hc) hR v hv
    refine ⟨{ b with m_VoronoiRegions := w1 }, ?_, ?_⟩
    · show b.BuildEdge i = _
      simp [VoronoiDiagram2D.BuildEdge, hw]
    · rw [ha1, Contents_eq_iff]
      exact ⟨hP, hL, hE, hmap⟩

theorem runMutations_contents {P : Type} (ms : List (Mutation P)) :
    ∀ a b a1 : VoronoiDiagram2D P, a.Contents = b.Contents → runMutations a ms = .ok a1 →
      ∃ b1, runMutations b ms = .ok b1 ∧ a1.Contents = b1.Contents := by
  induction ms with
  | nil =>
    intro a b a1 hab h
    injection h with h
    exact ⟨b, rfl, by rw [← h]; exact hab⟩
  | cons m ms ih =>
    intro a b a1 hab h
    unfold runMutations at h
    cases hm : m.run a with
    | error e => rw [hm] at h; cases h
    | ok a2 =>
      rw [hm] at h
      obtain ⟨b2, hb2, hc2⟩ := Mutation_run_contents m a b a2 hab hm
      obtain ⟨b1, hb1, hc1⟩ := ih a2 b2 a1 hc2 h
      refine ⟨b1, ?_, hc1⟩
      simp only [runMutations, hb2]
      exact hb1

/-- A mutation that is defined on a diagram is defined on any diagram with as
many regions and a point container; it keeps both. -/
theorem Mutation_run_defined {P : Type} (m : Mutation P) (a b a1 : VoronoiDiagram2D P)
    (hlen : b.m_VoronoiRegions.length = a.m_VoronoiRegions.length)
    (hb : ∃ cb, b.m_PointsContainer = some cb) (h : m.run a = .ok a1) :
    ∃ b1, m.run b = .ok b1 ∧ b1.m_VoronoiRegions.length = a1.m_VoronoiRegions.length ∧
      ∃ cb1, b1.m_PointsContainer = some cb1 := by
  obtain ⟨cb, hcb⟩ := hb
  cases m with
  | AddVert x =>
    obtain ⟨_, _, hr⟩ := VoronoiDiagram2D.AddVert_fields a a1 x h
    exact ⟨_, VoronoiDiagram2D.some_AddVert b cb x hcb, by rw [hr]; exact hlen, _, rfl⟩
  | AddLine x =>
    have h1 : Except.ok (a.AddLine x) = Except.ok a1 := h
    injection h1 with h1
    exact ⟨b.AddLine x, rfl, by rw [← h1]; exact hlen, cb, hcb⟩
  | AddEdge x =>
    have h1 : Except.ok (a.AddEdge x) = Except.ok a1 := h
    injection h1 with h1
    exact ⟨b.AddEdge x, rfl, by rw [← h1]; exact hlen, cb, hcb⟩
  | VoronoiRegionAddPointId i x =>
    obtain ⟨v, hv, ha1⟩ := region_op_inv a a1 i (fun c => c.AddPointId x) h
    obtain ⟨w1, hw⟩ := updateCellAt_defined _ b.m_VoronoiRegions v i _ hlen hv
    refine ⟨{ b with m_VoronoiRegions := w1 }, ?_, ?_, cb, hcb⟩
    · show b.VoronoiRegionAddPointId i x = _
      simp [VoronoiDiagram2D.VoronoiRegionAddPointId, hw]
    · rw [ha1]
      show w1.length = v.length
      rw [updateCellAt_length _ _ i _ hw, updateCellAt_length _ _ i _ hv, hlen]
  | BuildEdge i =>
    obtain ⟨v, hv, ha1⟩ := region_op_inv a a1 i PolygonCell.BuildEdges h
    obtain ⟨w1, hw⟩ := updateCellAt_defined _ b.m_VoronoiRegions v i _ hlen hv
    refine ⟨{ b with m_VoronoiRegions := w1 }, ?_, ?_, cb, hcb⟩
    · show b.BuildEdge i = _
      simp [VoronoiDiagram2D.BuildEdge, hw]
    · rw [ha1]
      show w1.length = v.length
      rw [updateCellAt_length _ _ i _ hw, updateCellAt_length _ _ i _ hv, hlen]

theorem runMutations_defined {P : Type} (ms : List (Mutation P)) :
    ∀ a b a1 : VoronoiDiagram2D P,
      b.m_VoronoiRegions.length = a.m_VoronoiRegions.length →
      (∃ cb, b.m_PointsContainer = some cb) → runMutations a ms = .ok a1 →
      ∃ b1, runMutations b ms = .ok b1 ∧
        b1.m_VoronoiRegions.length = a1.m_VoronoiRegions.length := by
  induction ms with
  | nil =>
    intro a b a1 hlen _ h
    injection h with h
    exact ⟨b, rfl, by rw [← h]; exact hlen⟩
  | cons m ms ih =>
    intro a b a1 hlen hb h
    unfold runMutations at h
    cases hm : m.run a with
    | error e => rw [hm] at h; cases h
    | ok a2 =>
      rw [hm] at h
      obtain ⟨b2, hb2, hlen2, hcb2⟩ := Mutation_run_defined m a b a2 hlen hb hm
      obtain ⟨b1, hb1, hlen1⟩ := ih a2 b2 a1 hlen2 hcb2 h
      refine ⟨b1, ?_, hlen1⟩
      simp only [runMutations, hb2]
      exact hb1

theorem Mutation_run_length {P : Type} (m : Mutation P) (a a1 : VoronoiDiagram2D P)
    (h : m.run a = .ok a1) : a1.m_VoronoiRegions.length = a.m_VoronoiRegions.length := by
  cases m with
  | AddVert x =>
    obtain ⟨_, _, hr⟩ := VoronoiDiagram2D.AddVert_fields a a1 x h
    rw [hr]
  | AddLine x =>
    have h1 : Except.ok (a.AddLine x) = Except.ok a1 := h
    injection h1 with h1
    rw [← h1]
    rfl
  | AddEdge x =>
    have h1 : Except.ok (a.AddEdge x) = Except.ok a1 := h
    injection h1 with h1
    rw [← h1]
    rfl
  | VoronoiRegionAddPointId i x =>
    obtain ⟨v, hv, ha1⟩ := region_op_inv a a1 i (fun c => c.AddPointId x) h
    rw [ha1]
    exact updateCellAt_length _ _ i _ hv
  | BuildEdge i =>
    obtain ⟨v, hv, ha1⟩ := region_op_inv a a1 i PolygonCell.BuildEdges h
    rw [ha1]
    exact updateCellAt_length _ _ i _ hv

theorem runMutations_length {P : Type} (ms : List (Mutation P)) :
    ∀ a a1 : VoronoiDiagram2D P, runMutations a ms = .ok a1 →
      a1.m_VoronoiRegions.length = a.m_VoronoiRegions.length := by
  induction ms with
  | nil =>
    intro a a1 h
    injection h with h
    rw [h]
  | cons m ms ih =>
    intro a a1 h
    unfold runMutations at h
    cases hm : m.run a with
    | error e => rw [hm] at h; cases h
    | ok a2 =>
      rw [hm] at h
      rw [ih a2 a1 h, Mutation_run_length m a a2 hm]

theorem ClearPoints_pointIds (v : List PolygonCell) :
    (v.map PolygonCell.ClearPoints).map (fun c => c.m_PointIds) =
      List.replicate v.length [] := by
  induction v with
  | nil => rfl
  | cons c v ih =>
    simp only [List.map_cons, List.length_cons, List.replicate_succ, ih]
    rfl

theorem Reset_Contents {P : Type} (d : VoronoiDiagram2D P) :
    d.Reset.Contents = (some [], [], [], List.replicate d.m_VoronoiRegions.length []) := by
  have h := ClearPoints_pointIds d.m_VoronoiRegions
  unfold VoronoiDiagram2D.Contents VoronoiDiagram2D.Reset
  simp only []
  rw [h]
  rfl

/-- C14: `Reset()` followed by a replay reproduces the contents of a first
build.  If the mutation sequence `ms` (calls of `AddVert`, `AddLine`,
`AddEdge`, `VoronoiRegionAddPointId`, `BuildEdge`) is defined on a state `s`,
then after `Reset()` it is defined again, it is defined on the freshly
configured diagram `c` (no vertex, line or edge, and as many regions as `s`,
all without points), and the two runs end with the same vertex, line and edge
sequences and the same point list in each region. -/
theorem Reset_then_replay_same_contents {P : Type} (ms : List (Mutation P))
    (s c s1 : VoronoiDiagram2D P)
    (hc : c.Contents = (some [], [], [], List.replicate s.m_VoronoiRegions.length []))
    (hrun : runMutations s ms = .ok s1) :
    ∃ s3 c1, runMutations s1.Reset ms = .ok s3 ∧ runMutations c ms = .ok c1 ∧
      s3.Contents = c1.Contents := by
  have hlen1 := runMutations_length ms s s1 hrun
  have hlenR : s1.Reset.m_VoronoiRegions.length = s.m_VoronoiRegions.length := by
    rw [← hlen1]
    exact List.length_map _ _
  obtain ⟨s3, hs3, _⟩ := runMutations_defined ms s s1.Reset s1 hlenR ⟨_, rfl⟩ hrun
  have hcont : s1.Reset.Contents = c.Contents := by
    rw [Reset_Contents, hlen1, hc]
  obtain ⟨c1, hc1, heq⟩ := runMutations_contents ms s1.Reset c s3 hcont hs3
  exact ⟨s3, c1, hs3, hc1, heq⟩

/-- Witness of `Reset_then_replay_same_contents`: a small build on the sample
diagram, reset, and replayed, against the same build on the four-seed diagram
without geometry. -/
theorem Reset_then_replay_same_contents_witness :
    seededDiagram.Contents =
      (some [], [], [], List.replicate sampleDiagram.m_VoronoiRegions.length []) ∧
    ∃ s1, runMutations sampleDiagram buildMutations = .ok s1 ∧
      s1.Contents = (some [(5, 5), (5, -5), (-5, 5), (0, 5), (5, 5)],
        [(0, 1), (0, 2), (0, 1)], [edgeA, edgeA], [[0, 1, 0, 1], [], [], []]) ∧
      ∃ s3 c1, runMutations s1.Reset buildMutations = .ok s3 ∧
        runMutations seededDiagram buildMutations = .ok c1 ∧
        s3.Contents = c1.Contents ∧
        s3.Contents = (some [(0, 5), (5, 5)], [(0, 1)], [edgeA], [[0, 1], [], [], []]) := by
  refine ⟨rfl, _, rfl, rfl, ?_⟩
  obtain ⟨s3, c1, h3, h1, heq⟩ :=
    Reset_then_replay_same_contents buildMutations sampleDiagram seededDiagram _ rfl rfl
  refine ⟨s3, c1, h3, h1, heq, ?_⟩
  have hc1 : (Except.ok c1 : Except Fault (VoronoiDiagram2D (Int × Int))) =
      runMutations seededDiagram buildMutations := h1.symm
  rw [heq]
  have hval : runMutations seededDiagram buildMutations =
      .ok { seededDiagram with
        m_PointsContainer := some ⟨[(0, 5), (5, 5)]⟩
        m_LineList := [(0, 1)]
        m_EdgeList := [edgeA]
        m_VoronoiRegions := [⟨[0, 1], [(0, 1), (1, 0)]⟩, ⟨[], []⟩, ⟨[], []⟩, ⟨[], []⟩] } := rfl
  rw [hval] at hc1
  injection hc1 with hc1
  rw [hc1]
  rfl

/-! ## Density of the vertex ids -/

theorem VertexCall_run_container {P : Type} (c : VertexCall P) (d d1 : VoronoiDiagram2D P)
    (hd : ∃ pc, d.m_PointsContainer = some pc) (h : c.run d = .ok d1) :
    ∃ pc1, d1.m_PointsContainer = some pc1 := by
  obtain ⟨pc, hpc⟩ := hd
  cases c with
  | VertexListClear =>
    have h1 : Except.ok d.VertexListClear = Except.ok d1 := h
    injection h1 with h1
    rw [← h1]
    exact ⟨_, rfl⟩
  | AddVert x =>
    have h1 : d.AddVert x = .ok d1 := h
    rw [VoronoiDiagram2D.some_AddVert d pc x hpc] at h1
    injection h1 with h1
    rw [← h1]
    exact ⟨_, rfl⟩
  | GetVertex id =>
    have h1 : (match (d.GetVertex id).1 with
      | .ok _ => (.ok (d.GetVertex id).2 : Except Fault (VoronoiDiagram2D P))
      | .error e => .error e) = .ok d1 := h
    cases hg : (d.GetVertex id).1 with
    | error e => rw [hg] at h1; cases h1
    | ok p =>
      rw [hg] at h1
      injection h1 with h1
      rw [← h1]
      simp only [VoronoiDiagram2D.GetVertex, hpc]
      exact ⟨_, rfl⟩

theorem runVertexCalls_container {P : Type} (cs : List (VertexCall P)) :
    ∀ d d1 : VoronoiDiagram2D P, (∃ pc, d.m_PointsContainer = some pc) →
      runVertexCalls d cs = .ok d1 → ∃ pc1, d1.m_PointsContainer = some pc1 := by
  induction cs with
  | nil =>
    intro d d1 hd h
    injection h with h
    rw [← h]
    exact hd
  | cons c cs ih =>
    intro d d1 hd h
    unfold runVertexCalls at h
    cases hc : c.run d with
    | error e => rw [hc] at h; cases h
    | ok d2 =>
      rw [hc] at h
      exact ih d2 d1 (VertexCall_run_container c d d2 hd hc) h

/-- C16: the ids of the vertex store stay dense.  In every state reached
from an empty point container by `VertexListClear`, `AddVert` and successful
`GetVertex` calls, the store has a size `n`, the ids at which `GetVertex`
yields a vertex are exactly `0 ≤ id < n`, and `AddVert(x)` is defined, makes
the size `n + 1`, puts `x` at the id `n`, which held nothing before, and
keeps every vertex already stored under its id. -/
theorem vertex_ids_stay_dense {P : Type} (cs : List (VertexCall P))
    (d d1 : VoronoiDiagram2D P) (hd : d.VertexListSize = .ok 0)
    (hrun : runVertexCalls d cs = .ok d1) :
    ∃ n : Nat, d1.VertexListSize = .ok (n : Int) ∧
      (∀ id : Int, (∃ p, (d1.GetVertex id).1 = .ok p) ↔ (0 ≤ id ∧ id < (n : Int))) ∧
      ∀ x : P, ∃ d2, d1.AddVert x = .ok d2 ∧
        d2.VertexListSize = .ok ((n : Int) + 1) ∧
        (d1.GetVertex (n : Int)).1 = .error Fault.outOfRange ∧
        (d2.GetVertex (n : Int)).1 = .ok x ∧
        ∀ (id : Int) (p : P), (d1.GetVertex id).1 = .ok p → (d2.GetVertex id).1 = .ok p := by
  obtain ⟨pc0, hpc0, _⟩ := VoronoiDiagram2D.VertexListSize_ok d 0 hd
  obtain ⟨pc, hpc⟩ := runVertexCalls_container cs d d1 ⟨pc0, hpc0⟩ hrun
  refine ⟨pc.Size, by simp [VoronoiDiagram2D.VertexListSize, hpc], ?_, ?_⟩
  · intro id
    simp only [VoronoiDiagram2D.GetVertex, hpc]
    exact ElementAt_ok_iff pc id
  · intro x
    refine ⟨_, VoronoiDiagram2D.some_AddVert d1 pc x hpc, ?_, ?_, ?_, ?_⟩
    · simp [VoronoiDiagram2D.VertexListSize, PointsContainer.Size]
    · simp only [VoronoiDiagram2D.GetVertex, hpc]
      exact ElementAt_out pc _ (Or.inr (le_refl _))
    · have hlt : pc.elements.length < (pc.elements ++ [x]).length := by simp
      have h := ElementAt_ofNat ⟨pc.elements ++ [x]⟩ pc.elements.length hlt
      simpa [VoronoiDiagram2D.GetVertex, PointsContainer.Size] using h
    · intro id p hp
      simp only [VoronoiDiagram2D.GetVertex, hpc] at hp ⊢
      have hr := (ElementAt_ok_iff pc id).mp ⟨p, hp⟩
      rw [VoronoiDiagram2D.ElementAt_append_of_lt pc [x] id hr.2]
      exact hp

/-- Witness of `vertex_ids_stay_dense`: two insertions, a read, a clear and
an insertion on the four-seed diagram without geometry leave one vertex, at
the id 0. -/
theorem vertex_ids_stay_dense_witness :
    seededDiagram.VertexListSize = .ok 0 ∧
    ∃ d1, runVertexCalls seededDiagram vertexCalls = .ok d1 ∧
      d1.VertexListSize = .ok 1 ∧
      ∃ n : Nat, d1.VertexListSize = .ok (n : Int) ∧
        (∀ id : Int, (∃ p, (d1.GetVertex id).1 = .ok p) ↔ (0 ≤ id ∧ id < (n : Int))) ∧
        ∀ x : Int × Int, ∃ d2, d1.AddVert x = .ok d2 ∧
          d2.VertexListSize = .ok ((n : Int) + 1) ∧
          (d1.GetVertex (n : Int)).1 = .error Fault.outOfRange ∧
          (d2.GetVertex (n : Int)).1 = .ok x ∧
          ∀ (id : Int) (p : Int × Int),
            (d1.GetVertex id).1 = .ok p → (d2.GetVertex id).1 = .ok p :=
  ⟨rfl, _, rfl, rfl, vertex_ids_stay_dense vertexCalls seededDiagram _ rfl rfl⟩

end itk
